import Mathlib

set_option maxRecDepth 100000

/-!
A shallow embedding of the RSS ingestion pipeline in `scripts/fetch-feeds.js`
(the repository's latest fetcher variant), together with theorems settling the
frozen specification claims.

Modelling conventions:
* JavaScript's dynamically typed values (as produced by the external
  `fast-xml-parser` collaborator) are embedded as the inductive `JValue`;
  property access, optional chaining, truthiness and `||` are modelled
  explicitly.
* Strings are processed as `List Char`; JavaScript string lengths are
  UTF-16 code-unit counts, which agree with character counts on the
  Basic Multilingual Plane text this program handles.
* `String.prototype.toLowerCase` is modelled for the alphabets the script
  actually meets (ASCII, Cyrillic, German); other characters are fixed.
* Scanning loops that consume more than one character per step are written
  with an explicit fuel argument (initialised to the input length, which
  bounds every such scan) so that all definitions compute by structural
  recursion.
* External effects (the network, `Date` parsing, `Math.random`, the
  Readability collaborator) are parameters of the embedded functions.
-/

/-! ## JavaScript value model -/

/-- A JavaScript value as it appears in parsed-feed trees (the output shape of
the external XML parser): `undefined` models JavaScript undefined. -/
inductive JValue where
  | undefined
  | null
  | bool (b : Bool)
  | num (n : Int)
  | str (s : String)
  | arr (xs : List JValue)
  | obj (fields : List (String × JValue))
deriving Repr, BEq

namespace JValue

/-- JavaScript truthiness (`NaN` does not arise in this program's values). -/
def truthy : JValue → Bool
  | .undefined => false
  | .null => false
  | .bool b => b
  | .num n => n != 0
  | .str s => s ≠ ""
  | .arr _ => true
  | .obj _ => true

/-- Property access `v[k]`: on objects the first binding wins, on every
non-object it yields `undefined` (this is also the behaviour of the optional
chain `v?.[k]`, which the script uses wherever `v` may be `null`/`undefined`). -/
def jget : JValue → String → JValue
  | .obj fs, k => ((fs.find? (fun f => f.1 == k)).map (fun f => f.2)).getD .undefined
  | _, _ => .undefined

/-- JavaScript `a || b` (value-preserving disjunction). -/
def jor (a b : JValue) : JValue := if a.truthy then a else b

/-- Does an object literally carry the key `k`? -/
def hasKey : JValue → String → Bool
  | .obj fs, k => fs.any (fun f => f.1 == k)
  | _, _ => false

/-- `Array.isArray(v) ? v : [v]`, the script's single-item normalization. -/
def asItemList : JValue → List JValue
  | .arr xs => xs
  | v => [v]

end JValue

/-! ## JavaScript string primitives -/

/-- `String.prototype.toLowerCase`, modelled character-wise for the alphabets
appearing in the script's patterns and data: ASCII `A–Z`, Cyrillic `А–Я` and
`Ё`, and the German letters `Ä Ö Ü`. Other characters are unchanged. -/
def jsToLower (c : Char) : Char :=
  if 'A' ≤ c ∧ c ≤ 'Z' then Char.ofNat (c.toNat + 32)
  else if 'А' ≤ c ∧ c ≤ 'Я' then Char.ofNat (c.toNat + 32)
  else if c = 'Ё' then 'ё'
  else if c = 'Ä' then 'ä'
  else if c = 'Ö' then 'ö'
  else if c = 'Ü' then 'ü'
  else c

/-- Lowercasing of a whole string. -/
def jsLowerStr (s : String) : String := String.mk (s.data.map jsToLower)

/-- The JavaScript whitespace class (`\s`, also used by `trim`). -/
def isJsWs (c : Char) : Bool :=
  c = ' ' ∨ (9 ≤ c.toNat ∧ c.toNat ≤ 13) ∨ c.toNat = 0xa0 ∨ c.toNat = 0x1680 ∨
    (0x2000 ≤ c.toNat ∧ c.toNat ≤ 0x200a) ∨ c.toNat = 0x2028 ∨ c.toNat = 0x2029 ∨
    c.toNat = 0x202f ∨ c.toNat = 0x205f ∨ c.toNat = 0x3000 ∨ c.toNat = 0xfeff

/-- `String.prototype.trim` on character lists. -/
def jsTrimL (xs : List Char) : List Char :=
  ((xs.dropWhile isJsWs).reverse.dropWhile isJsWs).reverse

/-- `String.prototype.trim`. -/
def jsTrim (s : String) : String := String.mk (jsTrimL s.data)

/-- Is `sub` a contiguous substring of `xs` (JavaScript `includes`)? -/
def containsSubL : List Char → List Char → Bool
  | _, [] => true
  | [], _ :: _ => false
  | c :: rest, sub => sub.isPrefixOf (c :: rest) || containsSubL rest sub

/-- JavaScript `s.includes(sub)`. -/
def containsSub (s sub : String) : Bool := containsSubL s.data sub.data

/-- Fuelled worker for `replaceAllL`. -/
def replaceAllGo (sep repl : List Char) : Nat → List Char → List Char
  | _, [] => []
  | 0, xs => xs
  | fuel + 1, c :: rest =>
    if sep.isPrefixOf (c :: rest) then
      repl ++ replaceAllGo sep repl fuel ((c :: rest).drop sep.length)
    else
      c :: replaceAllGo sep repl fuel rest

/-- Replace every (leftmost, non-overlapping) occurrence of the non-empty
literal `sep` by `repl`: the semantics of JavaScript `s.split(sep).join(repl)`. -/
def replaceAllL (sep repl xs : List Char) : List Char :=
  replaceAllGo sep repl xs.length xs

/-- Fuelled worker for `splitSubL`. -/
def splitSubGo (sep : List Char) : Nat → List Char → List (List Char)
  | _, [] => [[]]
  | 0, xs => [xs]
  | fuel + 1, c :: rest =>
    if sep.isPrefixOf (c :: rest) then
      [] :: splitSubGo sep fuel ((c :: rest).drop sep.length)
    else
      match splitSubGo sep fuel rest with
      | p :: ps => (c :: p) :: ps
      | [] => [[c]]

/-- Split at every (leftmost, non-overlapping) occurrence of the non-empty
literal `sep`: JavaScript `s.split(sep)`. -/
def splitSubL (sep xs : List Char) : List (List Char) :=
  splitSubGo sep xs.length xs

/-! ## HTML entity decoding (`decodeHtmlEntities`) -/

/-- The named-entity table, in the source's insertion (and hence iteration)
order. -/
def entityTable : List (String × String) :=
  [("&amp;", "&"), ("&lt;", "<"), ("&gt;", ">"), ("&quot;", "\""),
   ("&#39;", "'"), ("&apos;", "'"), ("&nbsp;", " "),
   ("&ndash;", "–"), ("&mdash;", "—"),
   ("&lsquo;", "‘"), ("&rsquo;", "’"), ("&ldquo;", "“"), ("&rdquo;", "”"),
   ("&bull;", "•"), ("&hellip;", "…"),
   ("&copy;", "©"), ("&reg;", "®"), ("&trade;", "™"),
   ("&euro;", "€"), ("&pound;", "£"), ("&yen;", "¥"),
   ("&auml;", "ä"), ("&ouml;", "ö"), ("&uuml;", "ü"),
   ("&Auml;", "Ä"), ("&Ouml;", "Ö"), ("&Uuml;", "Ü"), ("&szlig;", "ß")]

/-- One pass over the named-entity table (`split(entity).join(char)` per row). -/
def decodeNamed (xs : List Char) : List Char :=
  entityTable.foldl (fun acc p => replaceAllL p.1.data p.2.data acc) xs

def isDigitCh (c : Char) : Bool := '0' ≤ c ∧ c ≤ '9'

def isHexCh (c : Char) : Bool :=
  ('0' ≤ c ∧ c ≤ '9') ∨ ('a' ≤ c ∧ c ≤ 'f') ∨ ('A' ≤ c ∧ c ≤ 'F')

def digitVal (c : Char) : Nat :=
  if '0' ≤ c ∧ c ≤ '9' then c.toNat - '0'.toNat
  else if 'a' ≤ c ∧ c ≤ 'f' then c.toNat - 'a'.toNat + 10
  else if 'A' ≤ c ∧ c ≤ 'F' then c.toNat - 'A'.toNat + 10
  else 0

def digitsToNat (base : Nat) (ds : List Char) : Nat :=
  ds.foldl (fun acc c => acc * base + digitVal c) 0

/-- `String.fromCharCode(n)`: the argument is reduced to a UTF-16 code unit.
(Exact for the in-range references this feed data contains; lone surrogates,
which Lean strings cannot hold, are mapped to the null character.) -/
def fromCharCode (n : Nat) : Char := Char.ofNat (n % 65536)

/-- Fuelled worker for the pass `replace(/&#(\d+);/g, ...)`: leftmost,
non-overlapping decimal character references become their code unit. -/
def decodeDecGo : Nat → List Char → List Char
  | _, [] => []
  | 0, xs => xs
  | fuel + 1, c :: rest =>
    if c = '&' then
      match rest with
      | '#' :: rest2 =>
        let ds := rest2.takeWhile isDigitCh
        if ds.isEmpty then '&' :: decodeDecGo fuel rest
        else
          match rest2.drop ds.length with
          | ';' :: rest3 => fromCharCode (digitsToNat 10 ds) :: decodeDecGo fuel rest3
          | _ => '&' :: decodeDecGo fuel rest
      | _ => '&' :: decodeDecGo fuel rest
    else c :: decodeDecGo fuel rest

/-- Fuelled worker for the pass `replace(/&#x([0-9a-fA-F]+);/g, ...)`
(lower-case `x` only, as in the source). -/
def decodeHexGo : Nat → List Char → List Char
  | _, [] => []
  | 0, xs => xs
  | fuel + 1, c :: rest =>
    if c = '&' then
      match rest with
      | '#' :: 'x' :: rest2 =>
        let ds := rest2.takeWhile isHexCh
        if ds.isEmpty then '&' :: decodeHexGo fuel rest
        else
          match rest2.drop ds.length with
          | ';' :: rest3 => fromCharCode (digitsToNat 16 ds) :: decodeHexGo fuel rest3
          | _ => '&' :: decodeHexGo fuel rest
      | _ => '&' :: decodeHexGo fuel rest
    else c :: decodeHexGo fuel rest

/-- `decodeHtmlEntities` on strings: the named-entity table is applied in
order, then decimal references, then hexadecimal references. -/
def decodeHtmlEntities (s : String) : String :=
  let xs := decodeNamed s.data
  let ys := decodeDecGo xs.length xs
  String.mk (decodeHexGo ys.length ys)

/-- `decodeHtmlEntities` on arbitrary JavaScript values: the source returns
falsy and non-string arguments unchanged. -/
def decodeEntitiesJ : JValue → JValue
  | .str s => if s = "" then .str s else .str (decodeHtmlEntities s)
  | v => v


/-! ## A small regular-expression engine

The junk-pattern table in `cleanTextContent` is a list of JavaScript regex
literals; they are embedded as abstract syntax trees over character classes
and matched with Brzozowski derivatives (the greedy/lazy distinction is
irrelevant for the boolean `test` the script performs). -/

/-- Primitive character sets appearing in the script's patterns. `ci c`
matches case-insensitively (`c` is stored lower-case); `dotc` is `.` (any
character except a line terminator); `anyc` is used to pad unanchored
searches. -/
inductive CSet where
  | lit (c : Char)
  | ci (c : Char)
  | digit
  | wordc
  | wsc
  | dotc
  | anyc
  | rng (lo hi : Char)
deriving Repr, BEq

def matchCSet (c : Char) : CSet → Bool
  | .lit d => c = d
  | .ci d => jsToLower c = d
  | .digit => isDigitCh c
  | .wordc => isDigitCh c ∨ ('a' ≤ c ∧ c ≤ 'z') ∨ ('A' ≤ c ∧ c ≤ 'Z') ∨ c = '_'
  | .wsc => isJsWs c
  | .dotc => ¬ (c = '\n' ∨ c = '\r' ∨ c.toNat = 0x2028 ∨ c.toNat = 0x2029)
  | .anyc => true
  | .rng lo hi => lo ≤ c ∧ c ≤ hi

/-- Regular expressions: `cls ss` matches one character in the union of the
sets `ss`. -/
inductive Re where
  | emp
  | eps
  | cls (ss : List CSet)
  | seq (a b : Re)
  | alt (a b : Re)
  | star (a : Re)
deriving Repr, BEq

namespace Re

def nullable : Re → Bool
  | .emp => false
  | .eps => true
  | .cls _ => false
  | .seq a b => nullable a && nullable b
  | .alt a b => nullable a || nullable b
  | .star _ => true

/-- Does `a` already occur on the right spine of the alternation `b`? -/
def altHas (a : Re) : Re → Bool
  | .alt b1 b2 => a == b1 || altHas a b2
  | b => a == b

/-- Alternation smart constructor: drops `emp` and duplicate branches, keeping
derivative sizes bounded. -/
def mkAlt : Re → Re → Re
  | .emp, b => b
  | .alt a1 a2, b => mkAlt a1 (mkAlt a2 b)
  | a, .emp => a
  | a, b => if altHas a b then b else .alt a b

/-- Concatenation smart constructor: absorbs `emp` and erases `eps`. -/
def mkSeq : Re → Re → Re
  | .emp, _ => .emp
  | _, .emp => .emp
  | .eps, b => b
  | a, .eps => a
  | a, b => .seq a b

/-- Brzozowski derivative with respect to one character. -/
def deriv : Re → Char → Re
  | .emp, _ => .emp
  | .eps, _ => .emp
  | .cls ss, c => if ss.any (matchCSet c) then .eps else .emp
  | .seq a b, c => mkAlt (mkSeq (deriv a c) b) (if nullable a then deriv b c else .emp)
  | .alt a b, c => mkAlt (deriv a c) (deriv b c)
  | .star a, c => mkSeq (deriv a c) (.star a)

end Re

/-- Does `re` match the whole character list? -/
def matchWhole (re : Re) (xs : List Char) : Bool :=
  (xs.foldl Re.deriv re).nullable

def anyC : Re := .cls [.anyc]
def digitC : Re := .cls [.digit]
def wordC : Re := .cls [.wordc]
def wsC : Re := .cls [.wsc]
def dotC : Re := .cls [.dotc]
def trueStar : Re := .star anyC

/-- A case-sensitive literal character. -/
def reChar (c : Char) : Re := .cls [.lit c]

/-- A case-insensitive literal character (for patterns carrying the `i` flag). -/
def reCi (c : Char) : Re := .cls [.ci (jsToLower c)]

/-- A case-sensitive literal string. -/
def reStrCS (s : String) : Re := s.data.foldr (fun c acc => Re.seq (reChar c) acc) .eps

/-- A case-insensitive literal string. -/
def reStrCi (s : String) : Re := s.data.foldr (fun c acc => Re.seq (reCi c) acc) .eps

def reOpt (r : Re) : Re := .alt r .eps

def rePlus (r : Re) : Re := .seq r (.star r)

/-- `r{n}`: exactly `n` copies. -/
def reRep (r : Re) : Nat → Re
  | 0 => .eps
  | n + 1 => .seq r (reRep r n)

def reAlts : List Re → Re
  | [] => .emp
  | [r] => r
  | r :: rs => .alt r (reAlts rs)

/-- `re.test(s)` for a pattern anchored only at the start (`/^.../`). -/
def testAtStart (re : Re) (s : String) : Bool := matchWhole (.seq re trueStar) s.data

/-- `re.test(s)` for a pattern anchored only at the end (`/...$/`). -/
def testAtEnd (re : Re) (s : String) : Bool := matchWhole (.seq trueStar re) s.data

/-- `re.test(s)` for a pattern anchored at both ends (`/^...$/`). -/
def testWhole (re : Re) (s : String) : Bool := matchWhole re s.data

/-- `re.test(s)` for an unanchored pattern (match anywhere). -/
def testWithin (re : Re) (s : String) : Bool :=
  matchWhole (.seq trueStar (.seq re trueStar)) s.data

/-! ## The junk-pattern table of `cleanTextContent` (in source order) -/

def junk01 : String → Bool :=
  testAtStart (.seq (reStrCi "http") (.seq (reOpt (reCi 's')) (reStrCi "://")))

def emailCls : Re := .cls [.wordc, .lit '.', .lit '-']

def junk02 : String → Bool :=
  testWithin (.seq (rePlus emailCls) (.seq (reChar '@') (.seq (rePlus emailCls)
    (.seq (reChar '.') (.seq wordC (rePlus wordC))))))

def phoneCls : Re := .cls [.digit, .wsc, .lit '-', .lit '(', .lit ')']

def junk03 : String → Bool :=
  testWhole (.seq (reOpt (reChar '+')) (.seq digitC (.seq (reRep phoneCls 6) (.star phoneCls))))

def junk04 : String → Bool :=
  testAtStart (.seq (reRep digitC 4) (.seq (reChar '-') (.seq (reRep digitC 2)
    (.seq (reChar '-') (reRep digitC 2)))))

def junk05 : String → Bool :=
  testAtStart (.seq (reRep digitC 2) (.seq (reChar '.') (.seq (reRep digitC 2)
    (.seq (reChar '.') (reRep digitC 4)))))

def junk06 : String → Bool :=
  testAtStart (.seq (reRep digitC 2) (.seq (reChar ':') (.seq (reRep digitC 2)
    (.seq (.star dotC)
      (reAlts [reStrCi "GMT", reStrCi "UTC", reStrCi "MSK", .seq (reChar '+') (reRep digitC 2)])))))

def junk07 : String → Bool :=
  testAtStart (.seq (reAlts [reStrCi "Updated", reStrCi "Published",
    reStrCi "Опубликовано", reStrCi "Обновлено"]) (reChar ':'))

def junk08 : String → Bool := testWithin (reStrCi "Sputnik International")

def junk09 : String → Bool := testWithin (reStrCi "Rossiya Segodnya")

def junk10 : String → Bool := testWithin (reStrCi "РИА Новости")

def junk11 : String → Bool := testWithin (reStrCi "ТАСС")

def junk12 : String → Bool := testWithin (reAlts [reStrCi "feedback@", reStrCi "internet-group@"])

def junk13 : String → Bool :=
  testWithin (.seq (reStrCi "MIA") (.seq (.star wsC) (Re.cls [.lit '„', .lit '"', .lit '«', .lit '»'])))

def junk14 : String → Bool := testWithin (.seq (reStrCi "ФГУП") wsC)

def junk15 : String → Bool :=
  testWhole (.seq (reRep (Re.cls [.rng 'a' 'z']) 2) (.seq (Re.cls [.lit '-', .lit '_'])
    (reRep (Re.cls [.rng 'A' 'Z']) 2)))

def junk16 : String → Bool :=
  testWhole (reAlts [reStrCi "News", reStrCi "Новости", reStrCi "World", reStrCi "В мире"])

def junk17 : String → Bool := testWhole (reRep digitC 4)

def junk18 : String → Bool :=
  testWhole (reAlts (["world", "russia", "ukraine", "usa", "europe",
    "россия", "украина", "мир"].map reStrCi))

def junk19 : String → Bool :=
  testWithin (.seq (reStrCi "xn--") (.seq (.star dotC) (.seq (reChar '.') (reStrCi "xn--"))))

def junk20 : String → Bool :=
  testWithin (reAlts ([".jpg", ".png", ".gif", ".webp"].map reStrCi))

def junk21 : String → Bool :=
  testAtEnd (.seq (reStrCi "award") (.seq (reOpt (reCi 's')) (reOpt (reChar '/'))))

def junk22 (s : String) : Bool :=
  testAtStart (.seq (reStrCi "Copyright") wsC) s ||
    testWithin (.seq (reChar '©') (.seq (reOpt wsC) (reRep digitC 4))) s

def junk23 : String → Bool := testWithin (reStrCi "All rights reserved")

def junk24 : String → Bool := testWithin (reStrCi "Все права защищены")

def junk25 : String → Bool :=
  testWithin (reAlts [reStrCi "Cookie", reStrCi "Datenschutz", reStrCi "Privacy"])

def junk26 : String → Bool := testWithin (reStrCi "Cookies zustimmen")

def junk27 : String → Bool := testWithin (reStrCi "Golem pur")

def junk28 (s : String) : Bool :=
  testAtStart (reStrCi "Zu Golem") s || testAtStart (reStrCi "Hier anmelden") s

def junkTests : List (String → Bool) :=
  [junk01, junk02, junk03, junk04, junk05, junk06, junk07, junk08, junk09, junk10,
   junk11, junk12, junk13, junk14, junk15, junk16, junk17, junk18, junk19, junk20,
   junk21, junk22, junk23, junk24, junk25, junk26, junk27, junk28]

/-- `junkPatterns.some(p => p.test(line))`. -/
def junkAny (line : String) : Bool := junkTests.any (fun t => t line)


/-! ## Plain-text cleaning (`cleanTextContent`) -/

/-- Fuelled worker for `split(/\s+/)`: parts separated by maximal whitespace
runs (a leading/trailing run contributes an empty part, as in JavaScript). -/
def splitWsGo : Nat → List Char → List (List Char)
  | _, [] => [[]]
  | 0, xs => [xs]
  | fuel + 1, c :: rest =>
    if isJsWs c then [] :: splitWsGo fuel (rest.dropWhile isJsWs)
    else
      match splitWsGo fuel rest with
      | p :: ps => (c :: p) :: ps
      | [] => [[c]]

/-- JavaScript `s.split(/\s+/)`. -/
def splitWs (s : String) : List String :=
  (splitWsGo s.data.length s.data).map String.mk

/-- Fuelled worker for `replace(/\n{3,}/g, '\n\n')`. -/
def collapseNlGo : Nat → List Char → List Char
  | _, [] => []
  | 0, xs => xs
  | fuel + 1, c :: rest =>
    if c = '\n' then
      let run := 1 + (rest.takeWhile (fun d => d = '\n')).length
      let rest2 := rest.dropWhile (fun d => d = '\n')
      (if 3 ≤ run then ['\n', '\n'] else List.replicate run '\n') ++ collapseNlGo fuel rest2
    else c :: collapseNlGo fuel rest

def isSpTab (c : Char) : Bool := c = ' ' ∨ c = '\t'

/-- Fuelled worker for `replace(/[ \t]+/g, ' ')`. -/
def collapseSpTabGo : Nat → List Char → List Char
  | _, [] => []
  | 0, xs => xs
  | fuel + 1, c :: rest =>
    if isSpTab c then ' ' :: collapseSpTabGo fuel (rest.dropWhile isSpTab)
    else c :: collapseSpTabGo fuel rest

/-- The `seen`-set deduplication: a line is dropped when the lower-cased first
60 characters repeat an earlier line's key. -/
def dedupBy60 : List String → List String → List String
  | [], _ => []
  | l :: ls, seen =>
    let key := jsLowerStr (String.mk (l.data.take 60))
    if seen.contains key then dedupBy60 ls seen
    else l :: dedupBy60 ls (key :: seen)

def commaCount (s : String) : Nat := s.data.countP (fun c => c = ',')

/-- The character class `[a-zA-Zа-яА-ЯёЁäöüÄÖÜß]` whose occurrences the
letter-density check counts. -/
def isLetterClassCh (c : Char) : Bool :=
  ('a' ≤ c ∧ c ≤ 'z') ∨ ('A' ≤ c ∧ c ≤ 'Z') ∨ ('а' ≤ c ∧ c ≤ 'я') ∨ ('А' ≤ c ∧ c ≤ 'Я') ∨
    c = 'ё' ∨ c = 'Ё' ∨ c = 'ä' ∨ c = 'ö' ∨ c = 'ü' ∨ c = 'Ä' ∨ c = 'Ö' ∨ c = 'Ü' ∨ c = 'ß'

def lettersCount (s : String) : Nat := s.data.countP isLetterClassCh

/-- The per-line filter of `cleanTextContent` (the body of `lines.filter`),
with the precomputed `normalizedTitle` and `titleWords` as arguments.

The two floating-point comparisons of the source are modelled by the exact
rational inequalities they compute for the word counts and line lengths that
occur: `matching.length >= titleWords.length * 0.8` as
`5·matching ≥ 4·total`, and `letters / line.length < 0.5` as
`2·letters < length`. -/
def lineFilter (nt : String) (tw : List String) (line : String) : Bool :=
  if line.length < 20 then false
  else if 500 < line.length then true
  else if junkAny line then false
  else
    let lineLower := jsLowerStr line
    if lineLower == nt then false
    else if 3 ≤ tw.length ∧
        4 * tw.length ≤ 5 * (tw.filter (fun w => containsSub lineLower w)).length ∧
        line.length < 150 then false
    else if 3 < commaCount line ∧ line.length < 200 ∧ ¬ containsSub line "." then false
    else if 2 * lettersCount line < line.length ∧ line.length < 100 then false
    else true

/-- `normalizedTitle = title.toLowerCase().trim()`. -/
def normalizedTitleOf (title : String) : String := jsTrim (jsLowerStr title)

/-- `titleWords = normalizedTitle.split(/\s+/).filter(w => w.length > 3)`. -/
def titleWordsOf (nt : String) : List String := (splitWs nt).filter (fun w => 3 < w.length)

/-- The surviving lines: split on newline, trim, drop empties, apply the line
filter, deduplicate by 60-character key. -/
def survivingLines (text title : String) : List String :=
  let nt := normalizedTitleOf title
  let tw := titleWordsOf nt
  let lines0 := ((splitSubL ['\n'] text.data).map (fun l => String.mk (jsTrimL l))).filter
    (fun l => l ≠ "")
  dedupBy60 (lines0.filter (lineFilter nt tw)) []

/-- The `cleaned` string of the source: surviving lines joined by blank lines,
trimmed, with long newline runs and space/tab runs collapsed. -/
def cleanedOf (text title : String) : String :=
  let joined := (jsTrim (String.intercalate "\n\n" (survivingLines text title))).data
  let j2 := collapseNlGo joined.length joined
  String.mk (collapseSpTabGo j2.length j2)

/-- `cleanTextContent(text, title)`: `null` on falsy input, `null` when the
cleaned content is under 100 characters, otherwise the surviving paragraphs
(those longer than 20 characters) wrapped in `<p>` tags. -/
def cleanTextContent (text title : String) : Option String :=
  if text = "" then none
  else
    let cleaned := cleanedOf text title
    if cleaned.length < 100 then none
    else
      let paras := ((splitSubL ['\n', '\n'] cleaned.data).map
        (fun p => jsTrim (String.mk p))).filter (fun p => 20 < p.length)
      some (String.intercalate "\n" (paras.map (fun p => "<p>" ++ p ++ "</p>")))

/-! ## The fetcher (`fetchUrl`) -/

/-- The response the environment returns for one HTTP request: status code, the
optional `Location` header and the decoded body text. (Transport errors and
timeouts reject the promise before `fetchUrl` inspects a status; they are not
needed for the redirect claims and are left out of the environment model.) -/
structure HttpResp where
  statusCode : Nat
  location : Option String
  body : String

/-- `Location` handling: an absolute value (starting with `http`) is taken as
is, a relative one is resolved against the current URL by the `new URL(loc,
url)` constructor, supplied as the external function `resolve`. -/
def resolveLoc (resolve : String → String → String) (loc url : String) : String :=
  if loc.startsWith "http" then loc else resolve loc url

/-- `fetchUrl(url, maxRedirects)` with the network as the function `net`.
Returns the promise outcome together with the list of URLs actually requested
(one request per recursion level; the `maxRedirects <= 0` level rejects before
issuing a request). -/
def fetchUrl (net : String → HttpResp) (resolve : String → String → String) :
    String → Nat → Except String String × List String
  | _, 0 => (.error "Too many redirects", [])
  | url, fuel + 1 =>
    let res := net url
    match res.location with
    | some loc =>
      if 300 ≤ res.statusCode ∧ res.statusCode < 400 then
        let next := fetchUrl net resolve (resolveLoc resolve loc url) fuel
        (next.1, url :: next.2)
      else if 400 ≤ res.statusCode then (.error ("HTTP " ++ toString res.statusCode), [url])
      else (.ok res.body, [url])
    | none =>
      if 400 ≤ res.statusCode then (.error ("HTTP " ++ toString res.statusCode), [url])
      else (.ok res.body, [url])

/-- The default redirect budget of `fetchUrl`. -/
def fetchUrlDefault (net : String → HttpResp) (resolve : String → String → String)
    (url : String) : Except String String × List String :=
  fetchUrl net resolve url 5

/-! ## Article extraction (`extractArticleContent`) -/

/-- One attempt of the whole extraction sequence (fetch, cookie-wall check,
DOM work, Readability, cleaning): either it raises, or it produces the
`content | null` result. The claims quantify over this behaviour, so it is a
parameter: `attempt k` is the outcome of the (k+1)-th try. -/
inductive TryOutcome where
  | thrown
  | value (v : Option String)

/-- The retry skeleton of `extractArticleContent`: on an exception it waits
and re-enters the whole sequence with `retries - 1`, and with no retries left
it returns `null`. -/
def extractArticleContent (attempt : Nat → TryOutcome) : Nat → Nat → Option String
  | k, retries =>
    match attempt k with
    | .value v => v
    | .thrown =>
      match retries with
      | 0 => none
      | r + 1 => extractArticleContent attempt (k + 1) r

/-- `extractArticleContent(url, title)` with the source's default `retries = 1`. -/
def extractArticleDefault (attempt : Nat → TryOutcome) : Option String :=
  extractArticleContent attempt 0 1

/-! ## The feed parser (`parseRSS` and helpers) -/

/-- `parseDate`: `0` for a falsy date value, otherwise the epoch milliseconds
delivered by the external `Date` constructor (`none` models an invalid date,
i.e. `NaN`). -/
def parseDate (newDate : JValue → Option Int) (v : JValue) : Int :=
  if v.truthy then (newDate v).getD 0 else 0

/-- `extractContent(item)`: the fallback chain
`content:encoded → content['#text'] → content → description →
summary['#text'] → summary → ''`, followed by entity decoding. -/
def extractContent (item : JValue) : JValue :=
  decodeEntitiesJ
    ((item.jget "content:encoded").jor
      (((item.jget "content").jget "#text").jor
        ((item.jget "content").jor
          ((item.jget "description").jor
            (((item.jget "summary").jget "#text").jor
              ((item.jget "summary").jor (.str "")))))))

/-- `extractTitle(item)`: `title['#text'] → title → 'Untitled'`, then entity
decoding. -/
def extractTitle (item : JValue) : JValue :=
  decodeEntitiesJ
    (((item.jget "title").jget "#text").jor ((item.jget "title").jor (.str "Untitled")))

/-- A normalized item. Fields that the script fills with dynamic values keep
the `JValue` type; `hnCommentsUrl` and the two provenance flags are absent
(`undefined` / `false`) on the Atom and RDF paths, which never set them. -/
structure NItem where
  id : JValue
  title : JValue
  link : JValue
  hnCommentsUrl : JValue := .undefined
  content : JValue := .undefined
  date : Int := 0
  feedTitle : String := ""
  isHackerNews : Bool := false
  isGoogleNews : Bool := false
  fullContent : Option String := none
deriving Repr, BEq

/-- The RSS 2.0 per-item rule. `rand` models the freshly generated
`Math.random().toString(36)` token (pure stand-in for the lazily evaluated
random fallback). -/
def mkRssItem (newDate : JValue → Option Int) (rand : String) (feedTitle : String)
    (isHackerNews isGoogleNews : Bool) (item : JValue) : NItem :=
  { id := ((item.jget "guid").jget "#text").jor
      ((item.jget "guid").jor ((item.jget "link").jor (.str rand)))
    title := extractTitle item
    link := item.jget "link"
    hnCommentsUrl :=
      if isHackerNews ∧ (item.jget "comments").truthy then item.jget "comments" else .null
    content := extractContent item
    date := parseDate newDate (item.jget "pubDate")
    feedTitle := feedTitle
    isHackerNews := isHackerNews
    isGoogleNews := isGoogleNews }

/-- The Atom link rule: from a list of link objects pick the one with
`rel="alternate"`, else the first one's `href`; from a single object its
`href`, falling back to the value itself. -/
def atomLink (l : JValue) : JValue :=
  match l with
  | .arr xs =>
    (((xs.find? (fun e => e.jget "@_rel" == .str "alternate")).getD .undefined).jget "@_href").jor
      ((xs.headD .undefined).jget "@_href")
  | v => (v.jget "@_href").jor v

/-- The Atom per-entry rule. -/
def mkAtomItem (newDate : JValue → Option Int) (rand : String) (feedTitle : String)
    (item : JValue) : NItem :=
  let link := atomLink (item.jget "link")
  { id := (item.jget "id").jor (link.jor (.str rand))
    title := extractTitle item
    link := link
    content := extractContent item
    date := parseDate newDate ((item.jget "updated").jor (item.jget "published"))
    feedTitle := feedTitle }

/-- The RDF/RSS 1.0 per-item rule. -/
def mkRdfItem (newDate : JValue → Option Int) (rand : String) (feedTitle : String)
    (item : JValue) : NItem :=
  { id := (item.jget "link").jor (.str rand)
    title := extractTitle item
    link := item.jget "link"
    content := extractContent item
    date := parseDate newDate (item.jget "dc:date")
    feedTitle := feedTitle }

/-- The three root-shape detectors of `parseRSS` (the truthiness tests
`parsed.rss?.channel?.item`, `parsed.feed?.entry`, `parsed['rdf:RDF']?.item`). -/
def detectsRss2 (parsed : JValue) : Bool :=
  (((parsed.jget "rss").jget "channel").jget "item").truthy

def detectsAtom (parsed : JValue) : Bool :=
  ((parsed.jget "feed").jget "entry").truthy

def detectsRdf (parsed : JValue) : Bool :=
  (((parsed.jget "rdf:RDF")).jget "item").truthy

/-- `parseRSS(xml, feedTitle, maxArticles)` on the already-parsed tree (the
XML parser is the external collaborator; on malformed input it throws before
this function's body runs, which the fetch phase models as an `Except`). Each
matching format contributes its first `maxArticles` items, in document order. -/
def parseRSS (newDate : JValue → Option Int) (rand : String) (parsed : JValue)
    (feedTitle : String) (maxArticles : Nat) : List NItem :=
  let isGoogleNews := containsSub (jsLowerStr feedTitle) "google news"
  let isHackerNews := containsSub (jsLowerStr feedTitle) "hacker news"
  let rssItems :=
    if detectsRss2 parsed then
      ((((parsed.jget "rss").jget "channel").jget "item").asItemList.take maxArticles).map
        (mkRssItem newDate rand feedTitle isHackerNews isGoogleNews)
    else []
  let atomItems :=
    if detectsAtom parsed then
      (((parsed.jget "feed").jget "entry").asItemList.take maxArticles).map
        (mkAtomItem newDate rand feedTitle)
    else []
  let rdfItems :=
    if detectsRdf parsed then
      (((parsed.jget "rdf:RDF").jget "item").asItemList.take maxArticles).map
        (mkRdfItem newDate rand feedTitle)
    else []
  rssItems ++ atomItems ++ rdfItems

/-! ## Slug generation (`slugify`) -/

/-- The transliteration step `replace(/[äöü]/g, ...)`. -/
def umlautExpand (xs : List Char) : List Char :=
  xs.flatMap (fun c =>
    if c = 'ä' then ['a', 'e']
    else if c = 'ö' then ['o', 'e']
    else if c = 'ü' then ['u', 'e']
    else [c])

def isSlugAlnum (c : Char) : Bool := ('a' ≤ c ∧ c ≤ 'z') ∨ ('0' ≤ c ∧ c ≤ '9')

/-- `replace(/[^a-z0-9]+/g, '-')`: each maximal run of other characters
becomes one hyphen. The flag records whether the previous character was part
of such a run. -/
def collapseNonAlnum : Bool → List Char → List Char
  | _, [] => []
  | inRun, c :: rest =>
    if isSlugAlnum c then c :: collapseNonAlnum false rest
    else if inRun then collapseNonAlnum true rest
    else '-' :: collapseNonAlnum true rest

/-- `replace(/^-|-$/g, '')` on the collapsed string: one leading and one
trailing hyphen are removed. -/
def trimHyphens (xs : List Char) : List Char :=
  let ys := if xs.head? = some '-' then xs.tail else xs
  if ys.getLast? = some '-' then ys.dropLast else ys

/-- `slugify(str)`. -/
def slugify (s : String) : String :=
  String.mk (trimHyphens (collapseNonAlnum false (umlautExpand (jsLowerStr s).data)))


/-! ## Configuration and the fetch phase (Phase A of `main`) -/

/-- One feed of `config.json` (`articlesPerFeed` is the optional per-source
cap). -/
structure FeedConfig where
  title : String
  url : String
  articlesPerFeed : Option Nat := none
deriving Repr, BEq

structure CategoryConfig where
  name : String
  feeds : List FeedConfig
deriving Repr, BEq

structure Config where
  articlesPerFeed : Nat
  fetchFullText : Bool
  categories : List CategoryConfig
deriving Repr, BEq

/-- A feed with its category name attached (`{ ...feed, categoryName }`). -/
structure FeedSource extends FeedConfig where
  categoryName : String
deriving Repr, BEq

/-- The flattening loop at the top of `main`. -/
def allFeedsOf (cfg : Config) : List FeedSource :=
  cfg.categories.flatMap (fun c => c.feeds.map (fun f => { toFeedConfig := f, categoryName := c.name }))

/-- `feed.articlesPerFeed || config.articlesPerFeed`: JavaScript `||` also
falls through on a present but zero per-source value. -/
def effectiveCap (f : FeedSource) (globalCap : Nat) : Nat :=
  match f.articlesPerFeed with
  | some n => if n = 0 then globalCap else n
  | none => globalCap

/-- The per-feed result of the fetch phase. -/
structure FetchResult where
  feed : FeedSource
  items : List NItem
  error : Option String
deriving Repr, BEq

/-- The body of one Phase-A task up to its `catch`: fetch the document (with
retry) through the environment `fetchW`, parse it through the external XML
parser `parseDoc` (which throws on malformed input), then run `parseRSS` with
the effective cap. -/
def fetchAttempt (fetchW : FeedSource → Except String String)
    (parseDoc : String → Except String JValue) (newDate : JValue → Option Int)
    (rand : String) (globalCap : Nat) (f : FeedSource) : Except String (List NItem) := do
  let xml ← fetchW f
  let doc ← parseDoc xml
  pure (parseRSS newDate rand doc f.title (effectiveCap f globalCap))

/-- One Phase-A task including its `catch`: a failure yields the same feed
with an empty item list and the error message recorded. -/
def fetchOne (fetchW : FeedSource → Except String String)
    (parseDoc : String → Except String JValue) (newDate : JValue → Option Int)
    (rand : String) (globalCap : Nat) (f : FeedSource) : FetchResult :=
  match fetchAttempt fetchW parseDoc newDate rand globalCap f with
  | .ok items => ⟨f, items, none⟩
  | .error e => ⟨f, [], some e⟩

/-- `Promise.all(allFeeds.map(...))`: the fetch phase produces one result per
configured feed, in order. -/
def fetchPhase (fetchW : FeedSource → Except String String)
    (parseDoc : String → Except String JValue) (newDate : JValue → Option Int)
    (rand : String) (globalCap : Nat) (feeds : List FeedSource) : List FetchResult :=
  feeds.map (fetchOne fetchW parseDoc newDate rand globalCap)

/-! ## Per-item extraction processing (the body of `processNext`) -/

/-- The aggregator-unwrapping prelude of one linked item: for a Google News
item whose link is on the aggregator domain, `followRedirect` resolves the
real URL, and a truthy off-domain result both becomes the extraction target
and replaces `item.link`. `redirect` is the `followRedirect` resolver
(total: on any failure it returns the input URL). -/
def redirectStep (redirect : String → String) (item : NItem) (link : String) :
    String × NItem :=
  if item.isGoogleNews ∧ containsSub link "news.google.com" then
    let realUrl := redirect link
    if realUrl ≠ "" ∧ ¬ containsSub realUrl "news.google.com" then
      (realUrl, { item with link := .str realUrl })
    else (link, item)
  else (link, item)

/-- Processing of one linked item: the redirect prelude, then
`extractArticleContent`; a truthy result is attached as `fullContent` (counted
as extracted), anything else leaves the item as the redirect step left it
(counted as failed). `attempt u k` is the outcome of the (k+1)-th extraction
try against URL `u`. -/
def processLinked (attempt : String → Nat → TryOutcome) (redirect : String → String)
    (item : NItem) (link : String) : NItem × Bool :=
  let p := redirectStep redirect item link
  match extractArticleDefault (attempt p.1) with
  | some c => if c ≠ "" then ({ p.2 with fullContent := some c }, true) else (p.2, false)
  | none => (p.2, false)

inductive ProcOutcome where
  | extractedOut
  | failedOut
  | skippedOut
deriving Repr, DecidableEq

/-- One worklist iteration on an item: a falsy link is skipped (`completed++`
only); a truthy non-string link makes the `try` block throw (`includes` on a
non-string), which the `catch` counts as failed with the item untouched. -/
def processWorkItem (attempt : String → Nat → TryOutcome) (redirect : String → String)
    (item : NItem) : NItem × ProcOutcome :=
  if ¬ item.link.truthy then (item, .skippedOut)
  else
    match item.link with
    | .str l =>
      let r := processLinked attempt redirect item l
      (r.1, if r.2 then .extractedOut else .failedOut)
    | _ => (item, .failedOut)

/-! ## The Phase-B worker pool as a transition system

`processNext` is a loop over a shared cursor (`index`) into the flattened
worklist; `main` launches `min(concurrency, allItems.length)` copies of it.
The claim-and-increment executes without an intervening suspension point, so
it is one atomic step; an extraction is in flight between its claim step and
its finish step. Items are abstracted by whether they carry a link and whether
their extraction succeeds. -/

structure PoolCtx where
  n : Nat
  hasLink : Nat → Bool
  success : Nat → Bool

/-- `Math.min(concurrency, allItems.length)` with `concurrency = 10`. -/
def poolSize (ctx : PoolCtx) : Nat := min 10 ctx.n

inductive WStat where
  | idle
  | fetching (i : Nat)
  | finished
deriving Repr, DecidableEq

def WStat.isFetching : WStat → Bool
  | .fetching _ => true
  | _ => false

structure PoolState where
  cursor : Nat
  extracted : Nat
  failed : Nat
  skipped : Nat
  completed : Nat
  workers : List WStat
deriving Repr, DecidableEq

def initPool (ctx : PoolCtx) : PoolState :=
  ⟨0, 0, 0, 0, 0, List.replicate (poolSize ctx) .idle⟩

/-- The interleaving semantics of the pool: any worker may take its next
enabled step. -/
inductive PoolStep (ctx : PoolCtx) : PoolState → PoolState → Prop where
  | claimSkip (w : Nat) {s : PoolState} :
      s.workers[w]? = some .idle → s.cursor < ctx.n → ctx.hasLink s.cursor = false →
      PoolStep ctx s
        { s with cursor := s.cursor + 1, completed := s.completed + 1, skipped := s.skipped + 1 }
  | claimFetch (w : Nat) {s : PoolState} :
      s.workers[w]? = some .idle → s.cursor < ctx.n → ctx.hasLink s.cursor = true →
      PoolStep ctx s
        { s with cursor := s.cursor + 1, workers := s.workers.set w (.fetching s.cursor) }
  | finishOk (w i : Nat) {s : PoolState} :
      s.workers[w]? = some (.fetching i) → ctx.success i = true →
      PoolStep ctx s
        { s with workers := s.workers.set w .idle, completed := s.completed + 1, extracted := s.extracted + 1 }
  | finishFail (w i : Nat) {s : PoolState} :
      s.workers[w]? = some (.fetching i) → ctx.success i = false →
      PoolStep ctx s
        { s with workers := s.workers.set w .idle, completed := s.completed + 1, failed := s.failed + 1 }
  | exit (w : Nat) {s : PoolState} :
      s.workers[w]? = some .idle → ctx.n ≤ s.cursor →
      PoolStep ctx s { s with workers := s.workers.set w .finished }

/-- States reachable from the initial pool state. -/
def PoolReachable (ctx : PoolCtx) (s : PoolState) : Prop :=
  Relation.ReflTransGen (PoolStep ctx) (initPool ctx) s

/-- The number of extraction fetches in flight. -/
def fetchingCount (s : PoolState) : Nat := s.workers.countP WStat.isFetching

/-- All workers have observed the exhausted cursor and returned. -/
def terminalPool (s : PoolState) : Prop := ∀ st ∈ s.workers, st = WStat.finished

/-! ## The output assembler -/

/-- The body-free item header stored in the index (`content` and
`fullContent` have no counterpart here by construction). -/
structure IndexItem where
  id : JValue
  title : JValue
  date : Int
  link : JValue
  hnCommentsUrl : JValue
  isHackerNews : Bool
  isGoogleNews : Bool
deriving Repr, BEq

/-- The projection `item => ({ id, title, date, link, hnCommentsUrl,
isHackerNews, isGoogleNews })` applied to index items. -/
def projectItem (i : NItem) : IndexItem :=
  ⟨i.id, i.title, i.date, i.link, i.hnCommentsUrl, i.isHackerNews, i.isGoogleNews⟩

/-- One feed's entry in `feeds-index.json`. -/
structure IndexFeed where
  title : String
  url : String
  file : String
  count : Nat
  unreadCount : Nat
  error : Option String
  items : List IndexItem
deriving Repr, BEq

structure IndexCategory where
  name : String
  feeds : List IndexFeed
deriving Repr, BEq

/-- The content of one per-feed shard file. -/
structure ShardData where
  title : String
  items : List NItem
deriving Repr, BEq

/-- `${slugify(categoryName)}-${slugify(feed.title)}.json`. -/
def shardFileName (r : FetchResult) : String :=
  slugify r.feed.categoryName ++ "-" ++ slugify r.feed.title ++ ".json"

/-- The index entry pushed for one fetch result. -/
def mkIndexFeed (r : FetchResult) : IndexFeed :=
  { title := r.feed.title
    url := r.feed.url
    file := shardFileName r
    count := r.items.length
    unreadCount := r.items.length
    error := r.error
    items := r.items.map projectItem }

/-- The shard written for one fetch result (`{ title, items }`). -/
def shardDataOf (r : FetchResult) : ShardData := ⟨r.feed.title, r.items⟩

/-- `index.categories.find(c => c.name === categoryName)` followed by a push:
the entry joins the first category with that name, or a fresh category is
appended. -/
def addFeedEntry : List IndexCategory → String → IndexFeed → List IndexCategory
  | [], name, e => [⟨name, [e]⟩]
  | c :: cs, name, e =>
    if c.name == name then { c with feeds := c.feeds ++ [e] } :: cs
    else c :: addFeedEntry cs name e

/-- The index-building loop over all fetch results. -/
def buildIndexCategories (rs : List FetchResult) : List IndexCategory :=
  rs.foldl (fun cats r => addFeedEntry cats r.feed.categoryName (mkIndexFeed r)) []

/-- The sequence of shard-file writes the loop performs, in order. -/
def shardWrites (rs : List FetchResult) : List (String × ShardData) :=
  rs.map (fun r => (shardFileName r, shardDataOf r))

/-- The feed directory after all writes: each write replaces the whole file,
so the last write to a name wins. -/
def fsAfterWrites (ws : List (String × ShardData)) : String → Option ShardData :=
  ws.foldl (fun fs w => fun q => if q = w.1 then some w.2 else fs q) (fun _ => none)

/-! ## Proof-support definitions -/

/-- The inductive invariant of the worker pool: worker-list length, cursor
bound, counter accounting (`completed` splits into outcomes; claimed items are
either completed or in flight), the exit condition, and the skip count. -/
structure PoolInv (ctx : PoolCtx) (s : PoolState) : Prop where
  wlen : s.workers.length = poolSize ctx
  cle : s.cursor ≤ ctx.n
  csum : s.completed = s.extracted + s.failed + s.skipped
  cfetch : s.completed + fetchingCount s = s.cursor
  cfin : WStat.finished ∈ s.workers → s.cursor = ctx.n
  cskip : s.skipped = ((List.range s.cursor).filter (fun i => ctx.hasLink i = false)).length

def wWeight : WStat → Nat
  | .idle => 1
  | .fetching _ => 2
  | .finished => 0

/-- A ranking function for pool runs: every step strictly decreases it. -/
def poolMeasure (ctx : PoolCtx) (s : PoolState) : Nat :=
  3 * (ctx.n - s.cursor) + (s.workers.map wWeight).sum

/-- String payload of a `JValue`, for stating link facts. -/
def linkStr : JValue → Option String
  | .str s => some s
  | _ => none

/-- A concrete normalized item used by witnesses. -/
def sampleItem : NItem :=
  { id := .str "i1", title := .str "T", link := .str "http://x/a" }

/-- A concrete fetch result used by witnesses. -/
def sampleResult : FetchResult :=
  ⟨{ title := "Tech News", url := "http://feed", categoryName := "World" }, [sampleItem], none⟩

/-- Two fetch results whose feed titles differ but slugify identically. -/
def resultA : FetchResult :=
  ⟨{ title := "Tech News", url := "http://feed-a", categoryName := "World" }, [], none⟩

def resultB : FetchResult :=
  ⟨{ title := "tech-news!", url := "http://feed-b", categoryName := "World" }, [], none⟩

/-- A Google News item whose link extraction will rewrite. -/
def gnItem : NItem :=
  { id := .str "1", title := .str "t", link := .str "https://news.google.com/articles/x",
    isGoogleNews := true }

/-- A single-item RSS 2.0 parsed tree. -/
def rssDoc1 : JValue :=
  .obj [("rss", .obj [("channel", .obj [("item",
    .obj [("title", .str "a1"), ("link", .str "l1")])])])]

/-- A three-item RSS 2.0 parsed tree. -/
def rssDoc3 : JValue :=
  .obj [("rss", .obj [("channel", .obj [("item", .arr [
    .obj [("title", .str "a1"), ("link", .str "l1")],
    .obj [("title", .str "a2"), ("link", .str "l2")],
    .obj [("title", .str "a3"), ("link", .str "l3")]])])])]

/-- A single-entry Atom parsed tree. -/
def atomDoc1 : JValue :=
  .obj [("feed", .obj [("entry", .obj [("id", .str "e1"), ("title", .str "t1")])])]

/-- A one-item pool context (the item has no link) used by witnesses. -/
def ctxOne : PoolCtx := ⟨1, fun _ => false, fun _ => true⟩

/-- The pool state of `ctxOne` after all workers returned. -/
def stateDone : PoolState := ⟨1, 0, 0, 1, 1, [WStat.finished]⟩

/-! # Theorems

Helper lemmas come first, then one named theorem per claim (with its witness
or counterexample where required). -/

/-! ## Entity-decoding lemmas (claim C6) -/

theorem replaceAllGo_amp_free (t repl : List Char) :
    ∀ (fuel : Nat) (xs : List Char), '&' ∉ xs → replaceAllGo ('&' :: t) repl fuel xs = xs := by
  intro fuel
  induction fuel with
  | zero => intro xs _; cases xs <;> rfl
  | succ n ih =>
    intro xs h
    cases xs with
    | nil => rfl
    | cons c rest =>
      have hc : c ≠ '&' := by
        intro hc
        exact h (hc ▸ List.mem_cons_self c rest)
      have hpf : (('&' :: t).isPrefixOf (c :: rest)) = false := by
        simp [List.isPrefixOf, beq_eq_false_iff_ne]
        intro he
        exact (hc he.symm).elim
      have hrest : '&' ∉ rest := fun hr => h (List.mem_cons_of_mem c hr)
      simp only [replaceAllGo, hpf, Bool.false_eq_true, if_false]
      rw [ih rest hrest]

theorem decodeNamed_amp_free (xs : List Char) (h : '&' ∉ xs) : decodeNamed xs = xs := by
  have key : ∀ (ps : List (String × String)), (∀ p ∈ ps, ∃ t, p.1.data = '&' :: t) →
      ps.foldl (fun acc p => replaceAllL p.1.data p.2.data acc) xs = xs := by
    intro ps
    induction ps with
    | nil => intro _; rfl
    | cons p ps ih =>
      intro hps
      obtain ⟨t, ht⟩ := hps p (List.mem_cons_self p ps)
      have h1 : replaceAllL p.1.data p.2.data xs = xs := by
        rw [ht]; exact replaceAllGo_amp_free t p.2.data xs.length xs h
      simp only [List.foldl_cons, h1]
      exact ih (fun q hq => hps q (List.mem_cons_of_mem p hq))
  refine key entityTable ?_
  intro p hp
  have hb : p.1.data.head? = some '&' := by fin_cases hp <;> rfl
  cases hd : p.1.data with
  | nil => rw [hd] at hb; simp at hb
  | cons a l =>
    rw [hd] at hb
    simp only [List.head?_cons, Option.some.injEq] at hb
    exact ⟨l, by rw [hb]⟩

theorem decodeDecGo_amp_free : ∀ (fuel : Nat) (xs : List Char), '&' ∉ xs →
    decodeDecGo fuel xs = xs := by
  intro fuel
  induction fuel with
  | zero => intro xs _; cases xs <;> rfl
  | succ n ih =>
    intro xs h
    cases xs with
    | nil => rfl
    | cons c rest =>
      have hc : c ≠ '&' := fun hc => h (hc ▸ List.mem_cons_self c rest)
      have hrest : '&' ∉ rest := fun hr => h (List.mem_cons_of_mem c hr)
      simp only [decodeDecGo, hc, if_false]
      rw [ih rest hrest]

theorem decodeHexGo_amp_free : ∀ (fuel : Nat) (xs : List Char), '&' ∉ xs →
    decodeHexGo fuel xs = xs := by
  intro fuel
  induction fuel with
  | zero => intro xs _; cases xs <;> rfl
  | succ n ih =>
    intro xs h
    cases xs with
    | nil => rfl
    | cons c rest =>
      have hc : c ≠ '&' := fun hc => h (hc ▸ List.mem_cons_self c rest)
      have hrest : '&' ∉ rest := fun hr => h (List.mem_cons_of_mem c hr)
      simp only [decodeHexGo, hc, if_false]
      rw [ih rest hrest]

theorem decode_amp_free (s : String) (h : '&' ∉ s.data) : decodeHtmlEntities s = s := by
  unfold decodeHtmlEntities
  simp only [decodeNamed_amp_free s.data h, decodeDecGo_amp_free _ s.data h,
    decodeHexGo_amp_free _ s.data h]

/-- C6 counterexample: `decodeHtmlEntities` is not idempotent on every string —
on the double-encoded input `"&amp;amp;"` a second application decodes
further (`"&amp;"` becomes `"&"`). -/
theorem claim_C6_counterexample :
    decodeHtmlEntities (decodeHtmlEntities "&amp;amp;") ≠ decodeHtmlEntities "&amp;amp;" := by
  decide

/-- C6 (amended): `decodeHtmlEntities` is the identity on ampersand-free text
(hence idempotent there, and idempotent on any string whose first decoding is
ampersand-free — "already-decoded" text); the standard named and numeric round
trips hold: `"A &amp; B"` decodes to `"A & B"`, `"&#233;"` to `"é"`, and
`"&#x2014;"` to `"—"`. Applying it twice is *not* equal to applying it once on
double-encoded input (see the counterexample). -/
theorem claim_C6 :
    (∀ s : String, '&' ∉ s.data → decodeHtmlEntities s = s) ∧
    (∀ s : String, '&' ∉ (decodeHtmlEntities s).data →
      decodeHtmlEntities (decodeHtmlEntities s) = decodeHtmlEntities s) ∧
    decodeHtmlEntities "A &amp; B" = "A & B" ∧
    decodeHtmlEntities "&#233;" = "é" ∧
    decodeHtmlEntities "&#x2014;" = "—" :=
  ⟨fun s h => decode_amp_free s h,
   fun s h => decode_amp_free (decodeHtmlEntities s) h,
   by decide, by decide, by decide⟩

theorem claim_C6_witness :
    ('&' ∉ "plain text".data ∧ decodeHtmlEntities "plain text" = "plain text") ∧
    ('&' ∉ (decodeHtmlEntities "x &#233; y").data ∧
      decodeHtmlEntities (decodeHtmlEntities "x &#233; y") = decodeHtmlEntities "x &#233; y") :=
  ⟨⟨by decide, claim_C6.1 "plain text" (by decide)⟩,
   ⟨by decide, claim_C6.2.1 "x &#233; y" (by decide)⟩⟩

/-! ## Claim C1: per-feed fetch results and failure isolation -/

/-- C1: after the fetch phase there is exactly one `FetchResult` per configured
feed (same length, positionally matched); each position's result is a function
of that feed alone (so no feed's failure can affect another's result or abort
the phase); the result always carries its own feed; and on any fetch or parse
failure the result has an empty item sequence and the failure message in its
`error` field. -/
theorem claim_C1 (fetchW : FeedSource → Except String String)
    (parseDoc : String → Except String JValue) (newDate : JValue → Option Int)
    (rand : String) (g : Nat) (feeds : List FeedSource) :
    (fetchPhase fetchW parseDoc newDate rand g feeds).length = feeds.length ∧
    (∀ (i : Nat) (f : FeedSource), feeds[i]? = some f →
      (fetchPhase fetchW parseDoc newDate rand g feeds)[i]? =
        some (fetchOne fetchW parseDoc newDate rand g f)) ∧
    (∀ f, (fetchOne fetchW parseDoc newDate rand g f).feed = f) ∧
    (∀ f e, fetchAttempt fetchW parseDoc newDate rand g f = .error e →
      fetchOne fetchW parseDoc newDate rand g f = ⟨f, [], some e⟩) := by
  refine ⟨List.length_map _ _, ?_, ?_, ?_⟩
  · intro i f hf
    simp [fetchPhase, List.getElem?_map, hf]
  · intro f
    unfold fetchOne
    cases fetchAttempt fetchW parseDoc newDate rand g f <;> rfl
  · intro f e he
    unfold fetchOne
    rw [he]

theorem claim_C1_witness :
    (fetchPhase (fun _ => .error "Timeout") (fun _ => .error "malformed") (fun _ => none) "r" 5
      [sampleResult.feed]).length = 1 ∧
    fetchOne (fun _ => .error "Timeout") (fun _ => .error "malformed") (fun _ => none) "r" 5
      sampleResult.feed = ⟨sampleResult.feed, [], some "Timeout"⟩ :=
  ⟨(claim_C1 (fun _ => .error "Timeout") (fun _ => .error "malformed") (fun _ => none) "r" 5
      [sampleResult.feed]).1,
   (claim_C1 (fun _ => .error "Timeout") (fun _ => .error "malformed") (fun _ => none) "r" 5
      [sampleResult.feed]).2.2.2 sampleResult.feed "Timeout" rfl⟩

/-! ## Claim C3: redirect following in `fetchUrl` -/

theorem fetchUrl_all_redirect (net : String → HttpResp) (resolve : String → String → String)
    (hall : ∀ u, 300 ≤ (net u).statusCode ∧ (net u).statusCode < 400 ∧ (net u).location.isSome) :
    ∀ (n : Nat) (url : String), (fetchUrl net resolve url n).1 = .error "Too many redirects" ∧
      (fetchUrl net resolve url n).2.length = n := by
  intro n
  induction n with
  | zero => intro url; exact ⟨rfl, rfl⟩
  | succ m ih =>
    intro url
    obtain ⟨h1, h2, h3⟩ := hall url
    cases hloc : (net url).location with
    | none => rw [hloc] at h3; simp at h3
    | some loc =>
      simp only [fetchUrl, hloc]
      rw [if_pos ⟨h1, h2⟩]
      exact ⟨(ih _).1, by simpa using (ih _).2⟩

/-- C3: `fetchUrl` follows a 3xx response carrying a `Location` header by
re-entering itself on the target URL with one hop fewer, recording the
request; a relative `Location` (not starting with `http`) is resolved against
the current URL; and on a network where every response redirects, the default
call fails with `Too many redirects` after exactly 5 requests. -/
theorem claim_C3 (net : String → HttpResp) (resolve : String → String → String) :
    (∀ (url loc : String) (fuel : Nat), (net url).location = some loc →
      300 ≤ (net url).statusCode → (net url).statusCode < 400 →
      fetchUrl net resolve url (fuel + 1) =
        ((fetchUrl net resolve (resolveLoc resolve loc url) fuel).1,
          url :: (fetchUrl net resolve (resolveLoc resolve loc url) fuel).2)) ∧
    (∀ loc url, loc.startsWith "http" = false → resolveLoc resolve loc url = resolve loc url) ∧
    (∀ url, (∀ u, 300 ≤ (net u).statusCode ∧ (net u).statusCode < 400 ∧ (net u).location.isSome) →
      (fetchUrlDefault net resolve url).1 = .error "Too many redirects" ∧
      (fetchUrlDefault net resolve url).2.length = 5) := by
  refine ⟨?_, ?_, ?_⟩
  · intro url loc fuel hloc h1 h2
    simp only [fetchUrl, hloc]
    rw [if_pos ⟨h1, h2⟩]
  · intro loc url h
    simp [resolveLoc, h]
  · intro url hall
    exact fetchUrl_all_redirect net resolve hall 5 url

theorem claim_C3_witness :
    (fetchUrlDefault (fun _ => ⟨301, some "x", "b"⟩) (fun l u => u ++ l) "http://a").1 =
      .error "Too many redirects" ∧
    (fetchUrlDefault (fun _ => ⟨301, some "x", "b"⟩) (fun l u => u ++ l) "http://a").2.length = 5 :=
  (claim_C3 (fun _ => ⟨301, some "x", "b"⟩) (fun l u => u ++ l)).2.2 "http://a"
    (fun _ => ⟨by decide, by decide, rfl⟩)

/-! ## Claim C8: the plain-text cleaner's discard rules -/

/-- C8 counterexample: the per-line discard threshold is not 100 characters —
a 30-character line survives cleaning and appears in the output (next to a
longer companion line that lifts the total above the whole-result threshold). -/
theorem claim_C8_counterexample :
    (String.mk (List.replicate 30 'a')).length = 30 ∧
    cleanTextContent
        (String.mk (List.replicate 30 'a') ++ "\n" ++ String.mk (List.replicate 80 'b')) "" =
      some ("<p>" ++ String.mk (List.replicate 30 'a') ++ "</p>\n<p>" ++
        String.mk (List.replicate 80 'b') ++ "</p>") :=
  ⟨by decide, by decide⟩

/-- C8 (amended): the plain-text cleaner discards any line under 20 cleaned
characters; it discards a candidate line of at most 500 characters whose
lower-casing equals the supplied (normalized) title; and it returns `none`,
rejecting the whole result, when the surviving cleaned content is under 100
characters. (Lines over 500 characters bypass every per-line check, and the
per-line length threshold is 20, not 100 — see the counterexample.) -/
theorem claim_C8 :
    (∀ (nt : String) (tw : List String) (line : String), line.length < 20 →
      lineFilter nt tw line = false) ∧
    (∀ (nt : String) (tw : List String) (line : String), line.length ≤ 500 →
      jsLowerStr line = nt → lineFilter nt tw line = false) ∧
    (∀ text title, (cleanedOf text title).length < 100 →
      cleanTextContent text title = none) := by
  refine ⟨?_, ?_, ?_⟩
  · intro nt tw line h
    simp [lineFilter, h]
  · intro nt tw line h500 hlow
    unfold lineFilter
    by_cases h20 : line.length < 20
    · simp [h20]
    · rw [if_neg h20]
      have hn500 : ¬ 500 < line.length := by omega
      rw [if_neg hn500]
      by_cases hj : junkAny line = true
      · simp [hj]
      · have hbeq : (jsLowerStr line == nt) = true := by
          rw [hlow]
          simp
        simp [hj, hbeq]
  · intro text title h
    unfold cleanTextContent
    by_cases ht : text = ""
    · simp [ht]
    · simp [ht, h]

theorem claim_C8_witness :
    lineFilter "some headline" [] "tiny" = false ∧
    lineFilter (jsLowerStr "Quite A Long Headline For This") []
      "Quite A Long Headline For This" = false ∧
    cleanTextContent "hello world" "t" = none :=
  ⟨claim_C8.1 "some headline" [] "tiny" (by decide),
   claim_C8.2.1 (jsLowerStr "Quite A Long Headline For This") []
     "Quite A Long Headline For This" (by decide) rfl,
   claim_C8.2.2 "hello world" "t" (by decide)⟩

/-! ## Claims C4 and C5: format dispatch and the item cap in `parseRSS` -/

theorem jget_of_not_hasKey : ∀ (v : JValue) (k : String), v.hasKey k = false →
    v.jget k = .undefined
  | .undefined, _, _ => rfl
  | .null, _, _ => rfl
  | .bool _, _, _ => rfl
  | .num _, _, _ => rfl
  | .str _, _, _ => rfl
  | .arr _, _, _ => rfl
  | .obj fs, k, h => by
    have hfind : fs.find? (fun f => f.1 == k) = none := by
      rw [List.find?_eq_none]
      intro x hx
      simp only [JValue.hasKey, List.any_eq_false] at h
      exact h x hx
    simp [JValue.jget, hfind]

theorem detectsRss2_hasKey (parsed : JValue) (h : detectsRss2 parsed = true) :
    parsed.hasKey "rss" = true := by
  by_contra hk
  simp only [Bool.not_eq_true] at hk
  unfold detectsRss2 at h
  rw [jget_of_not_hasKey parsed "rss" hk] at h
  simp [JValue.jget, JValue.truthy] at h

theorem detectsAtom_hasKey (parsed : JValue) (h : detectsAtom parsed = true) :
    parsed.hasKey "feed" = true := by
  by_contra hk
  simp only [Bool.not_eq_true] at hk
  unfold detectsAtom at h
  rw [jget_of_not_hasKey parsed "feed" hk] at h
  simp [JValue.jget, JValue.truthy] at h

theorem detectsRdf_hasKey (parsed : JValue) (h : detectsRdf parsed = true) :
    parsed.hasKey "rdf:RDF" = true := by
  by_contra hk
  simp only [Bool.not_eq_true] at hk
  unfold detectsRdf at h
  rw [jget_of_not_hasKey parsed "rdf:RDF" hk] at h
  simp [JValue.jget, JValue.truthy] at h

/-- Under a single-rooted parsed tree (at most one of the three root keys, as
any well-formed XML document provides), the three detectors are pairwise
exclusive. -/
theorem detectors_exclusive (parsed : JValue)
    (hroot : (parsed.hasKey "rss").toNat + (parsed.hasKey "feed").toNat +
      (parsed.hasKey "rdf:RDF").toNat ≤ 1) :
    (detectsRss2 parsed && detectsAtom parsed) = false ∧
    (detectsRss2 parsed && detectsRdf parsed) = false ∧
    (detectsAtom parsed && detectsRdf parsed) = false := by
  refine ⟨?_, ?_, ?_⟩ <;> rw [Bool.and_eq_false_iff]
  · by_cases h1 : detectsRss2 parsed = true
    · by_cases h2 : detectsAtom parsed = true
      · rw [detectsRss2_hasKey parsed h1, detectsAtom_hasKey parsed h2] at hroot
        simp only [Bool.toNat_true] at hroot
        exact absurd hroot (by omega)
      · exact Or.inr (by simpa using h2)
    · exact Or.inl (by simpa using h1)
  · by_cases h1 : detectsRss2 parsed = true
    · by_cases h2 : detectsRdf parsed = true
      · rw [detectsRss2_hasKey parsed h1, detectsRdf_hasKey parsed h2] at hroot
        simp only [Bool.toNat_true] at hroot
        exact absurd hroot (by omega)
      · exact Or.inr (by simpa using h2)
    · exact Or.inl (by simpa using h1)
  · by_cases h1 : detectsAtom parsed = true
    · by_cases h2 : detectsRdf parsed = true
      · rw [detectsAtom_hasKey parsed h1, detectsRdf_hasKey parsed h2] at hroot
        simp only [Bool.toNat_true] at hroot
        exact absurd hroot (by omega)
      · exact Or.inr (by simpa using h2)
    · exact Or.inl (by simpa using h1)

/-- Dispatch: on a single-rooted tree, `parseRSS` is exactly the matching
format's rule applied to the first `maxArticles` items (and empty when no rule
matches). -/
theorem parseRSS_dispatch (newDate : JValue → Option Int) (rand : String) (parsed : JValue)
    (feedTitle : String) (cap : Nat)
    (hroot : (parsed.hasKey "rss").toNat + (parsed.hasKey "feed").toNat +
      (parsed.hasKey "rdf:RDF").toNat ≤ 1) :
    (detectsRss2 parsed = true → parseRSS newDate rand parsed feedTitle cap =
      ((((parsed.jget "rss").jget "channel").jget "item").asItemList.take cap).map
        (mkRssItem newDate rand feedTitle (containsSub (jsLowerStr feedTitle) "hacker news")
          (containsSub (jsLowerStr feedTitle) "google news"))) ∧
    (detectsAtom parsed = true → parseRSS newDate rand parsed feedTitle cap =
      (((parsed.jget "feed").jget "entry").asItemList.take cap).map
        (mkAtomItem newDate rand feedTitle)) ∧
    (detectsRdf parsed = true → parseRSS newDate rand parsed feedTitle cap =
      (((parsed.jget "rdf:RDF").jget "item").asItemList.take cap).map
        (mkRdfItem newDate rand feedTitle)) ∧
    (detectsRss2 parsed = false → detectsAtom parsed = false → detectsRdf parsed = false →
      parseRSS newDate rand parsed feedTitle cap = []) := by
  obtain ⟨hx1, hx2, hx3⟩ := detectors_exclusive parsed hroot
  refine ⟨?_, ?_, ?_, ?_⟩
  · intro h
    rw [h] at hx1 hx2
    simp only [Bool.true_and] at hx1 hx2
    simp [parseRSS, h, hx1, hx2]
  · intro h
    rw [h] at hx1 hx3
    simp only [Bool.and_true, Bool.true_and] at hx1 hx3
    simp [parseRSS, h, hx1, hx3]
  · intro h
    rw [h] at hx2 hx3
    simp only [Bool.and_true] at hx2 hx3
    simp [parseRSS, h, hx2, hx3]
  · intro h1 h2 h3
    simp [parseRSS, h1, h2, h3]

/-- C5: on any single-rooted parsed document (one root element, as delivered
by the XML parser for well-formed feeds) the three root-shape detectors are
pairwise exclusive and `parseRSS` dispatches to exactly the matching
extraction rule — no document yields items from more than one format rule. -/
theorem claim_C5 (newDate : JValue → Option Int) (rand : String) (parsed : JValue)
    (feedTitle : String) (cap : Nat)
    (hroot : (parsed.hasKey "rss").toNat + (parsed.hasKey "feed").toNat +
      (parsed.hasKey "rdf:RDF").toNat ≤ 1) :
    ((detectsRss2 parsed && detectsAtom parsed) = false ∧
     (detectsRss2 parsed && detectsRdf parsed) = false ∧
     (detectsAtom parsed && detectsRdf parsed) = false) ∧
    (detectsRss2 parsed = true → parseRSS newDate rand parsed feedTitle cap =
      ((((parsed.jget "rss").jget "channel").jget "item").asItemList.take cap).map
        (mkRssItem newDate rand feedTitle (containsSub (jsLowerStr feedTitle) "hacker news")
          (containsSub (jsLowerStr feedTitle) "google news"))) ∧
    (detectsAtom parsed = true → parseRSS newDate rand parsed feedTitle cap =
      (((parsed.jget "feed").jget "entry").asItemList.take cap).map
        (mkAtomItem newDate rand feedTitle)) ∧
    (detectsRdf parsed = true → parseRSS newDate rand parsed feedTitle cap =
      (((parsed.jget "rdf:RDF").jget "item").asItemList.take cap).map
        (mkRdfItem newDate rand feedTitle)) ∧
    (detectsRss2 parsed = false → detectsAtom parsed = false → detectsRdf parsed = false →
      parseRSS newDate rand parsed feedTitle cap = []) := by
  obtain ⟨d1, d2, d3, d4⟩ := parseRSS_dispatch newDate rand parsed feedTitle cap hroot
  exact ⟨detectors_exclusive parsed hroot, d1, d2, d3, d4⟩

theorem claim_C5_witness :
    parseRSS (fun _ => none) "r" atomDoc1 "My Feed" 5 =
      (((atomDoc1.jget "feed").jget "entry").asItemList.take 5).map
        (mkAtomItem (fun _ => none) "r" "My Feed") :=
  (claim_C5 (fun _ => none) "r" atomDoc1 "My Feed" 5 (by decide)).2.2.1 (by decide)

/-- C4 counterexample: the per-source override is not honoured whenever
present — a present override of `0` is falsy under the source's `||` fallback,
so the global default applies and the parser returns more items (here one)
than the override's cap (zero). -/
theorem claim_C4_counterexample :
    (({ title := "T", url := "u", articlesPerFeed := some 0, categoryName := "World" } :
        FeedSource)).articlesPerFeed = some 0 ∧
    effectiveCap
      { title := "T", url := "u", articlesPerFeed := some 0, categoryName := "World" } 5 = 5 ∧
    (parseRSS (fun _ => none) "r" rssDoc1 "T"
      (effectiveCap
        { title := "T", url := "u", articlesPerFeed := some 0, categoryName := "World" } 5)).length
      = 1 :=
  ⟨rfl, rfl, by decide⟩

/-- C4 (amended): on any single-rooted parsed document, `parseRSS` returns at
most `maxArticles` items; for each of the three formats, a matching document's
result is the order-preserving image of its first `maxArticles` items, so a
document with more items than the cap yields exactly the cap; the
effective cap is the per-source `articlesPerFeed` override when present *and
nonzero*, otherwise the global default (a present zero falls through to the
default — see the counterexample). -/
theorem claim_C4 (newDate : JValue → Option Int) (rand : String) (parsed : JValue)
    (feedTitle : String) (cap : Nat)
    (hroot : (parsed.hasKey "rss").toNat + (parsed.hasKey "feed").toNat +
      (parsed.hasKey "rdf:RDF").toNat ≤ 1) :
    (parseRSS newDate rand parsed feedTitle cap).length ≤ cap ∧
    (detectsRss2 parsed = true → parseRSS newDate rand parsed feedTitle cap =
      ((((parsed.jget "rss").jget "channel").jget "item").asItemList.take cap).map
        (mkRssItem newDate rand feedTitle (containsSub (jsLowerStr feedTitle) "hacker news")
          (containsSub (jsLowerStr feedTitle) "google news"))) ∧
    (detectsAtom parsed = true → parseRSS newDate rand parsed feedTitle cap =
      (((parsed.jget "feed").jget "entry").asItemList.take cap).map
        (mkAtomItem newDate rand feedTitle)) ∧
    (detectsRdf parsed = true → parseRSS newDate rand parsed feedTitle cap =
      (((parsed.jget "rdf:RDF").jget "item").asItemList.take cap).map
        (mkRdfItem newDate rand feedTitle)) ∧
    (detectsRss2 parsed = true →
      cap ≤ (((parsed.jget "rss").jget "channel").jget "item").asItemList.length →
      (parseRSS newDate rand parsed feedTitle cap).length = cap) ∧
    (detectsAtom parsed = true →
      cap ≤ ((parsed.jget "feed").jget "entry").asItemList.length →
      (parseRSS newDate rand parsed feedTitle cap).length = cap) ∧
    (detectsRdf parsed = true →
      cap ≤ ((parsed.jget "rdf:RDF").jget "item").asItemList.length →
      (parseRSS newDate rand parsed feedTitle cap).length = cap) ∧
    (∀ (f : FeedSource) (g n : Nat), f.articlesPerFeed = some n → n ≠ 0 →
      effectiveCap f g = n) ∧
    (∀ (f : FeedSource) (g : Nat), f.articlesPerFeed = none → effectiveCap f g = g) := by
  obtain ⟨d1, d2, d3, d4⟩ := parseRSS_dispatch newDate rand parsed feedTitle cap hroot
  refine ⟨?_, d1, d2, d3, ?_, ?_, ?_, ?_, ?_⟩
  · by_cases h1 : detectsRss2 parsed = true
    · rw [d1 h1]
      simp [List.length_take]
    · by_cases h2 : detectsAtom parsed = true
      · rw [d2 h2]
        simp [List.length_take]
      · by_cases h3 : detectsRdf parsed = true
        · rw [d3 h3]
          simp [List.length_take]
        · rw [d4 (by simpa using h1) (by simpa using h2) (by simpa using h3)]
          simp
  · intro h hlen
    rw [d1 h]
    simp [List.length_take]
    omega
  · intro h hlen
    rw [d2 h]
    simp [List.length_take]
    omega
  · intro h hlen
    rw [d3 h]
    simp [List.length_take]
    omega
  · intro f g n hf hn
    simp [effectiveCap, hf, hn]
  · intro f g hf
    simp [effectiveCap, hf]

theorem claim_C4_witness :
    (parseRSS (fun _ => none) "r" rssDoc3 "T" 2).length ≤ 2 ∧
    (parseRSS (fun _ => none) "r" rssDoc3 "T" 2 =
      ((((rssDoc3.jget "rss").jget "channel").jget "item").asItemList.take 2).map
        (mkRssItem (fun _ => none) "r" "T" (containsSub (jsLowerStr "T") "hacker news")
          (containsSub (jsLowerStr "T") "google news"))) ∧
    (parseRSS (fun _ => none) "r" atomDoc1 "T" 2 =
      (((atomDoc1.jget "feed").jget "entry").asItemList.take 2).map
        (mkAtomItem (fun _ => none) "r" "T")) ∧
    (parseRSS (fun _ => none) "r" rssDoc3 "T" 2).length = 2 ∧
    effectiveCap { title := "T", url := "u", articlesPerFeed := some 7, categoryName := "W" } 5
      = 7 ∧
    effectiveCap { title := "T", url := "u", articlesPerFeed := none, categoryName := "W" } 5
      = 5 :=
  ⟨(claim_C4 (fun _ => none) "r" rssDoc3 "T" 2 (by decide)).1,
   (claim_C4 (fun _ => none) "r" rssDoc3 "T" 2 (by decide)).2.1 (by decide),
   (claim_C4 (fun _ => none) "r" atomDoc1 "T" 2 (by decide)).2.2.1 (by decide),
   (claim_C4 (fun _ => none) "r" rssDoc3 "T" 2 (by decide)).2.2.2.2.1 (by decide) (by decide),
   (claim_C4 (fun _ => none) "r" rssDoc3 "T" 2 (by decide)).2.2.2.2.2.2.2.1
     { title := "T", url := "u", articlesPerFeed := some 7, categoryName := "W" } 5 7 rfl
     (by decide),
   (claim_C4 (fun _ => none) "r" rssDoc3 "T" 2 (by decide)).2.2.2.2.2.2.2.2
     { title := "T", url := "u", articlesPerFeed := none, categoryName := "W" } 5 rfl⟩

/-! ## Claim C7: extraction retry and item preservation -/

theorem redirectStep_fields (redirect : String → String) (item : NItem) (link : String) :
    (redirectStep redirect item link).2.id = item.id ∧
    (redirectStep redirect item link).2.title = item.title ∧
    (redirectStep redirect item link).2.content = item.content ∧
    (redirectStep redirect item link).2.date = item.date ∧
    (redirectStep redirect item link).2.feedTitle = item.feedTitle ∧
    (redirectStep redirect item link).2.hnCommentsUrl = item.hnCommentsUrl ∧
    (redirectStep redirect item link).2.isHackerNews = item.isHackerNews ∧
    (redirectStep redirect item link).2.isGoogleNews = item.isGoogleNews ∧
    (redirectStep redirect item link).2.fullContent = item.fullContent := by
  unfold redirectStep
  split
  · dsimp only
    split <;> simp
  · simp

theorem redirectStep_of_not_gn (redirect : String → String) (item : NItem) (link : String)
    (h : item.isGoogleNews = false) : redirectStep redirect item link = (link, item) := by
  unfold redirectStep
  rw [if_neg]
  intro hc
  rw [h] at hc
  exact absurd hc.1 (by simp)

/-- C7 counterexample: Google News link unwrapping mutates the item even when
extraction then fails — the resulting item has no `fullContent` yet differs
from the original (its link was rewritten), so "populated `fullContent` or
otherwise unchanged" does not hold as stated. -/
theorem claim_C7_counterexample :
    (processLinked (fun _ _ => .value none) (fun _ => "https://pub.example/a") gnItem
      "https://news.google.com/articles/x").1.fullContent = none ∧
    (processLinked (fun _ _ => .value none) (fun _ => "https://pub.example/a") gnItem
      "https://news.google.com/articles/x").1 ≠ gnItem := by
  refine ⟨by decide, ?_⟩
  intro h
  have h2 := congrArg (fun x => linkStr x.link) h
  revert h2
  decide

/-- C7 (amended): `extractArticleContent` retries the whole sequence exactly
once on an exception and reports `none` after a second exception (never an
error); per-item processing is total and never fails the enclosing item —
every field other than `link` and `fullContent` is preserved, a failed
extraction leaves `fullContent` untouched (and, for non-aggregator items, the
whole item exactly unchanged), a successful extraction attaches a nonempty
`fullContent`, and a linkless item is skipped. The one deviation from the
original claim is that aggregator (Google News) link unwrapping may rewrite
`item.link` even when extraction fails. -/
theorem claim_C7 :
    (∀ (a : Nat → TryOutcome) (v : Option String), a 0 = .value v →
      extractArticleDefault a = v) ∧
    (∀ (a : Nat → TryOutcome) (v : Option String), a 0 = .thrown → a 1 = .value v →
      extractArticleDefault a = v) ∧
    (∀ a : Nat → TryOutcome, a 0 = .thrown → a 1 = .thrown →
      extractArticleDefault a = none) ∧
    (∀ attempt redirect item link,
      (processLinked attempt redirect item link).1.id = item.id ∧
      (processLinked attempt redirect item link).1.title = item.title ∧
      (processLinked attempt redirect item link).1.content = item.content ∧
      (processLinked attempt redirect item link).1.date = item.date ∧
      (processLinked attempt redirect item link).1.feedTitle = item.feedTitle ∧
      (processLinked attempt redirect item link).1.hnCommentsUrl = item.hnCommentsUrl ∧
      (processLinked attempt redirect item link).1.isHackerNews = item.isHackerNews ∧
      (processLinked attempt redirect item link).1.isGoogleNews = item.isGoogleNews) ∧
    (∀ attempt redirect item link, (processLinked attempt redirect item link).2 = false →
      (processLinked attempt redirect item link).1.fullContent = item.fullContent) ∧
    (∀ attempt redirect item link, item.isGoogleNews = false →
      (processLinked attempt redirect item link).2 = false →
      (processLinked attempt redirect item link).1 = item) ∧
    (∀ attempt redirect item link, (processLinked attempt redirect item link).2 = true →
      ∃ c, c ≠ "" ∧ (processLinked attempt redirect item link).1.fullContent = some c) ∧
    (∀ attempt redirect item, item.link.truthy = false →
      processWorkItem attempt redirect item = (item, .skippedOut)) := by
  refine ⟨?_, ?_, ?_, ?_, ?_, ?_, ?_, ?_⟩
  · intro a v h
    simp [extractArticleDefault, extractArticleContent, h]
  · intro a v h0 h1
    simp [extractArticleDefault, extractArticleContent, h0, h1]
  · intro a h0 h1
    simp [extractArticleDefault, extractArticleContent, h0, h1]
  · intro attempt redirect item link
    obtain ⟨f1, f2, f3, f4, f5, f6, f7, f8, f9⟩ := redirectStep_fields redirect item link
    unfold processLinked
    cases hex : extractArticleDefault (attempt (redirectStep redirect item link).1) with
    | none => simp [hex, f1, f2, f3, f4, f5, f6, f7, f8]
    | some c =>
      by_cases hc : c = ""
      · simp [hex, hc, f1, f2, f3, f4, f5, f6, f7, f8]
      · simp [hex, hc, f1, f2, f3, f4, f5, f6, f7, f8]
  · intro attempt redirect item link hfail
    obtain ⟨f1, f2, f3, f4, f5, f6, f7, f8, f9⟩ := redirectStep_fields redirect item link
    unfold processLinked at hfail ⊢
    dsimp only at hfail ⊢
    cases hex : extractArticleDefault (attempt (redirectStep redirect item link).1) with
    | none => simp [hex, f9]
    | some c =>
      rw [hex] at hfail
      by_cases hc : c = ""
      · simp [hex, hc, f9]
      · simp [hc] at hfail
  · intro attempt redirect item link hgn hfail
    have hrs := redirectStep_of_not_gn redirect item link hgn
    unfold processLinked at hfail ⊢
    dsimp only at hfail ⊢
    rw [hrs] at hfail ⊢
    cases hex : extractArticleDefault (attempt (link, item).1) with
    | none => simp [hex]
    | some c =>
      rw [hex] at hfail
      by_cases hc : c = ""
      · simp [hex, hc]
      · simp [hc] at hfail
  · intro attempt redirect item link hok
    unfold processLinked at hok ⊢
    dsimp only at hok ⊢
    cases hex : extractArticleDefault (attempt (redirectStep redirect item link).1) with
    | none => rw [hex] at hok; simp at hok
    | some c =>
      rw [hex] at hok
      by_cases hc : c = ""
      · subst hc
        simp at hok
      · exact ⟨c, hc, by simp [hex, hc]⟩
  · intro attempt redirect item h
    simp [processWorkItem, h]

theorem claim_C7_witness :
    extractArticleDefault (fun k => if k = 0 then .thrown else .value (some "body"))
      = some "body" ∧
    extractArticleDefault (fun _ => .thrown) = none ∧
    processWorkItem (fun _ _ => .value none) (fun u => u) { sampleItem with link := .null } =
      ({ sampleItem with link := .null }, .skippedOut) :=
  ⟨claim_C7.2.1 (fun k => if k = 0 then .thrown else .value (some "body")) (some "body") rfl rfl,
   claim_C7.2.2.1 (fun _ => .thrown) rfl rfl,
   claim_C7.2.2.2.2.2.2.2 (fun _ _ => .value none) (fun u => u)
     { sampleItem with link := .null } rfl⟩

/-! ## Claim C10: slug collisions and shard overwriting -/

/-- C10: `slugify` is not injective — the distinct feed titles `"Tech News"`
and `"tech-news!"` produce the same slug, the two configured feeds in the same
category are assigned the same shard filename, and after both writes the file
holds the later feed's shard, which differs from the earlier one's. -/
theorem claim_C10 :
    slugify "Tech News" = slugify "tech-news!" ∧ "Tech News" ≠ "tech-news!" ∧
    shardFileName resultA = shardFileName resultB ∧
    fsAfterWrites (shardWrites [resultA, resultB]) (shardFileName resultA) =
      some (shardDataOf resultB) ∧
    shardDataOf resultB ≠ shardDataOf resultA := by
  refine ⟨by decide, by decide, by decide, rfl, ?_⟩
  intro h
  have h2 := congrArg ShardData.title h
  revert h2
  decide

/-! ## Claim C2: index entries, shards and the body-free projection -/

theorem addFeedEntry_mem (name : String) (e0 fe : IndexFeed) :
    ∀ (cats : List IndexCategory) (cat : IndexCategory), cat ∈ addFeedEntry cats name e0 →
      fe ∈ cat.feeds → (∃ cat' ∈ cats, fe ∈ cat'.feeds) ∨ fe = e0 := by
  intro cats
  induction cats with
  | nil =>
    intro cat hcat hfe
    simp only [addFeedEntry, List.mem_singleton] at hcat
    subst hcat
    simp only [List.mem_singleton] at hfe
    exact Or.inr hfe
  | cons c cs ih =>
    intro cat hcat hfe
    by_cases hn : (c.name == name) = true
    · simp only [addFeedEntry, hn, if_true, List.mem_cons] at hcat
      rcases hcat with hcat | hcat
      · subst hcat
        simp only [List.mem_append, List.mem_singleton] at hfe
        rcases hfe with hfe | hfe
        · exact Or.inl ⟨c, List.mem_cons_self c cs, hfe⟩
        · exact Or.inr hfe
      · exact Or.inl ⟨cat, List.mem_cons_of_mem c hcat, hfe⟩
    · simp only [addFeedEntry, hn, Bool.false_eq_true, if_false, List.mem_cons] at hcat
      rcases hcat with hcat | hcat
      · subst hcat
        exact Or.inl ⟨cat, List.mem_cons_self cat cs, hfe⟩
      · rcases ih cat hcat hfe with ⟨cat', hc', hf'⟩ | h
        · exact Or.inl ⟨cat', List.mem_cons_of_mem c hc', hf'⟩
        · exact Or.inr h

theorem buildIndex_mem_aux : ∀ (l : List FetchResult) (acc : List IndexCategory)
    (cat : IndexCategory) (fe : IndexFeed),
    cat ∈ l.foldl (fun cats r => addFeedEntry cats r.feed.categoryName (mkIndexFeed r)) acc →
    fe ∈ cat.feeds →
    (∃ cat' ∈ acc, fe ∈ cat'.feeds) ∨ ∃ r ∈ l, fe = mkIndexFeed r := by
  intro l
  induction l with
  | nil => intro acc cat fe hcat hfe; exact Or.inl ⟨cat, hcat, hfe⟩
  | cons r rl ih =>
    intro acc cat fe hcat hfe
    simp only [List.foldl_cons] at hcat
    rcases ih _ cat fe hcat hfe with h | h
    · obtain ⟨cat', hc', hf'⟩ := h
      rcases addFeedEntry_mem r.feed.categoryName (mkIndexFeed r) fe acc cat' hc' hf' with h2 | h2
      · exact Or.inl h2
      · exact Or.inr ⟨r, List.mem_cons_self r rl, h2⟩
    · obtain ⟨r', hr', he⟩ := h
      exact Or.inr ⟨r', List.mem_cons_of_mem r hr', he⟩

/-- C2: every feed entry in the built index originates from one of the fetch
results, whose shard is among the written shard files; the entry's `file`
field names that shard, its `count` equals the number of items written to the
shard, and its item list is exactly the body-free projection of the shard's
items (the `IndexItem` type has no `content`/`fullContent` field at all). -/
theorem claim_C2 (rs : List FetchResult) :
    ∀ cat ∈ buildIndexCategories rs, ∀ fe ∈ cat.feeds,
      ∃ r ∈ rs, fe = mkIndexFeed r ∧
        (shardFileName r, shardDataOf r) ∈ shardWrites rs ∧
        fe.file = shardFileName r ∧
        fe.count = (shardDataOf r).items.length ∧
        fe.items = (shardDataOf r).items.map projectItem := by
  intro cat hcat fe hfe
  rcases buildIndex_mem_aux rs [] cat fe hcat hfe with h | h
  · simp at h
  · obtain ⟨r, hr, he⟩ := h
    subst he
    exact ⟨r, hr, rfl, List.mem_map_of_mem (fun r => (shardFileName r, shardDataOf r)) hr,
      rfl, rfl, rfl⟩

theorem claim_C2_witness :
    ∃ r ∈ [sampleResult], mkIndexFeed sampleResult = mkIndexFeed r ∧
      (shardFileName r, shardDataOf r) ∈ shardWrites [sampleResult] ∧
      (mkIndexFeed sampleResult).file = shardFileName r ∧
      (mkIndexFeed sampleResult).count = (shardDataOf r).items.length ∧
      (mkIndexFeed sampleResult).items = (shardDataOf r).items.map projectItem :=
  claim_C2 [sampleResult] ⟨"World", [mkIndexFeed sampleResult]⟩ (List.Mem.head _)
    (mkIndexFeed sampleResult) (List.Mem.head _)

/-! ## Claim C9: the Phase-B worker pool -/

theorem countP_set_eq (p : WStat → Bool) :
    ∀ (l : List WStat) (w : Nat) (u v : WStat), l[w]? = some u →
      (l.set w v).countP p + (if p u then 1 else 0) = l.countP p + (if p v then 1 else 0) := by
  intro l
  induction l with
  | nil => intro w u v h; simp at h
  | cons a as ih =>
    intro w u v h
    cases w with
    | zero =>
      simp only [List.getElem?_cons_zero, Option.some.injEq] at h
      subst h
      simp only [List.set, List.countP_cons]
      omega
    | succ w' =>
      simp only [List.getElem?_cons_succ] at h
      simp only [List.set, List.countP_cons]
      have := ih w' u v h
      omega

theorem sum_map_set_eq (f : WStat → Nat) :
    ∀ (l : List WStat) (w : Nat) (u v : WStat), l[w]? = some u →
      ((l.set w v).map f).sum + f u = (l.map f).sum + f v := by
  intro l
  induction l with
  | nil => intro w u v h; simp at h
  | cons a as ih =>
    intro w u v h
    cases w with
    | zero =>
      simp only [List.getElem?_cons_zero, Option.some.injEq] at h
      subst h
      simp only [List.set, List.map_cons, List.sum_cons]
      omega
    | succ w' =>
      simp only [List.getElem?_cons_succ] at h
      simp only [List.set, List.map_cons, List.sum_cons]
      have := ih w' u v h
      omega

theorem poolInv_init (ctx : PoolCtx) : PoolInv ctx (initPool ctx) := by
  refine ⟨?_, ?_, ?_, ?_, ?_, ?_⟩
  · simp [initPool]
  · simp [initPool]
  · simp [initPool]
  · simp only [initPool, fetchingCount, Nat.zero_add]
    rw [List.countP_eq_zero]
    intro a ha
    rw [List.eq_of_mem_replicate ha]
    simp [WStat.isFetching]
  · intro hmem
    have := List.eq_of_mem_replicate hmem
    simp at this
  · simp [initPool]

theorem poolInv_step {ctx : PoolCtx} {s t : PoolState} (hst : PoolStep ctx s t)
    (inv : PoolInv ctx s) : PoolInv ctx t := by
  obtain ⟨wlen, cle, csum, cfetch, cfin, cskip⟩ := inv
  cases hst with
  | claimSkip w hw hc hl =>
    refine ⟨wlen, by dsimp only; omega, by dsimp only; omega, ?_, ?_, ?_⟩
    · dsimp only [fetchingCount] at cfetch ⊢
      omega
    · intro hmem
      dsimp only at hmem ⊢
      exact absurd (cfin hmem) (by omega)
    · dsimp only
      rw [List.range_succ, List.filter_append]
      simp [hl, cskip]
  | claimFetch w hw hc hl =>
    have hcount := countP_set_eq WStat.isFetching s.workers w .idle (.fetching s.cursor) hw
    refine ⟨by dsimp only; simpa [List.length_set] using wlen, by dsimp only; omega,
      by dsimp only; exact csum, ?_, ?_, ?_⟩
    · dsimp only [fetchingCount] at cfetch ⊢
      simp only [WStat.isFetching] at hcount
      simp at hcount
      omega
    · intro hmem
      dsimp only at hmem ⊢
      rcases List.mem_or_eq_of_mem_set hmem with hmem' | heq
      · exact absurd (cfin hmem') (by omega)
      · simp at heq
    · dsimp only
      rw [List.range_succ, List.filter_append]
      simp [hl, cskip]
  | finishOk w i hw hs =>
    have hcount := countP_set_eq WStat.isFetching s.workers w (.fetching i) .idle hw
    refine ⟨by dsimp only; simpa [List.length_set] using wlen, by dsimp only; exact cle,
      by dsimp only; omega, ?_, ?_, by dsimp only; exact cskip⟩
    · dsimp only [fetchingCount] at cfetch ⊢
      simp only [WStat.isFetching] at hcount
      simp at hcount
      omega
    · intro hmem
      dsimp only at hmem ⊢
      rcases List.mem_or_eq_of_mem_set hmem with hmem' | heq
      · exact cfin hmem'
      · simp at heq
  | finishFail w i hw hs =>
    have hcount := countP_set_eq WStat.isFetching s.workers w (.fetching i) .idle hw
    refine ⟨by dsimp only; simpa [List.length_set] using wlen, by dsimp only; exact cle,
      by dsimp only; omega, ?_, ?_, by dsimp only; exact cskip⟩
    · dsimp only [fetchingCount] at cfetch ⊢
      simp only [WStat.isFetching] at hcount
      simp at hcount
      omega
    · intro hmem
      dsimp only at hmem ⊢
      rcases List.mem_or_eq_of_mem_set hmem with hmem' | heq
      · exact cfin hmem'
      · simp at heq
  | exit w hw hge =>
    have hcount := countP_set_eq WStat.isFetching s.workers w .idle .finished hw
    refine ⟨by dsimp only; simpa [List.length_set] using wlen, by dsimp only; exact cle,
      by dsimp only; exact csum, ?_, ?_, by dsimp only; exact cskip⟩
    · dsimp only [fetchingCount] at cfetch ⊢
      simp only [WStat.isFetching] at hcount
      simp at hcount
      omega
    · intro _
      dsimp only
      omega

theorem poolInv_reachable {ctx : PoolCtx} {s : PoolState} (h : PoolReachable ctx s) :
    PoolInv ctx s := by
  unfold PoolReachable at h
  induction h with
  | refl => exact poolInv_init ctx
  | tail _ hstep ih => exact poolInv_step hstep ih

theorem poolStep_measure {ctx : PoolCtx} {s t : PoolState} (hst : PoolStep ctx s t) :
    poolMeasure ctx t < poolMeasure ctx s := by
  cases hst with
  | claimSkip w hw hc hl =>
    simp only [poolMeasure]
    omega
  | claimFetch w hw hc hl =>
    have hsum := sum_map_set_eq wWeight s.workers w .idle (.fetching s.cursor) hw
    simp only [wWeight] at hsum
    simp only [poolMeasure]
    omega
  | finishOk w i hw hs =>
    have hsum := sum_map_set_eq wWeight s.workers w (.fetching i) .idle hw
    simp only [wWeight] at hsum
    simp only [poolMeasure]
    omega
  | finishFail w i hw hs =>
    have hsum := sum_map_set_eq wWeight s.workers w (.fetching i) .idle hw
    simp only [wWeight] at hsum
    simp only [poolMeasure]
    omega
  | exit w hw hge =>
    have hsum := sum_map_set_eq wWeight s.workers w .idle .finished hw
    simp only [wWeight] at hsum
    simp only [poolMeasure]
    omega

theorem poolProgress (ctx : PoolCtx) {s : PoolState} (hterm : ¬ terminalPool s) :
    ∃ t, PoolStep ctx s t := by
  unfold terminalPool at hterm
  push_neg at hterm
  obtain ⟨st, hmem, hne⟩ := hterm
  obtain ⟨w, hwlt, hwe⟩ := List.mem_iff_getElem.mp hmem
  have hws : s.workers[w]? = some st := by
    rw [List.getElem?_eq_getElem hwlt, hwe]
  cases st with
  | idle =>
    by_cases hcur : s.cursor < ctx.n
    · cases hl : ctx.hasLink s.cursor with
      | false => exact ⟨_, PoolStep.claimSkip w hws hcur hl⟩
      | true => exact ⟨_, PoolStep.claimFetch w hws hcur hl⟩
    · exact ⟨_, PoolStep.exit w hws (by omega)⟩
  | fetching i =>
    cases hsuc : ctx.success i with
    | false => exact ⟨_, PoolStep.finishFail w i hws hsuc⟩
    | true => exact ⟨_, PoolStep.finishOk w i hws hsuc⟩
  | finished => exact absurd rfl hne

theorem pool_reaches_terminal {ctx : PoolCtx} :
    ∀ (m : Nat) (s : PoolState), poolMeasure ctx s ≤ m → PoolReachable ctx s →
      ∃ t, Relation.ReflTransGen (PoolStep ctx) s t ∧ terminalPool t := by
  intro m
  induction m with
  | zero =>
    intro s hm _
    by_cases hterm : terminalPool s
    · exact ⟨s, Relation.ReflTransGen.refl, hterm⟩
    · obtain ⟨t, hstep⟩ := poolProgress ctx hterm
      have hlt := poolStep_measure hstep
      exact absurd hlt (by omega)
  | succ k ih =>
    intro s hm hreach
    by_cases hterm : terminalPool s
    · exact ⟨s, Relation.ReflTransGen.refl, hterm⟩
    · obtain ⟨t, hstep⟩ := poolProgress ctx hterm
      have hlt := poolStep_measure hstep
      obtain ⟨u, hru, hu⟩ := ih t (by omega) (Relation.ReflTransGen.tail hreach hstep)
      exact ⟨u, Relation.ReflTransGen.head hstep hru, hu⟩

/-- C9: in every reachable state of the Phase-B worker pool at most 10
extraction fetches are outstanding; every terminal state (all workers
returned) accounts for exactly all `n` worklist items — `completed = n` and
`extracted + failed + skipped = n`, where `skipped` counts exactly the items
with no link (skipped items count as neither success nor failure); and from
every reachable state the pool completes, i.e. some terminal state is
reachable (so every maximal run of `min 10 n` workers over `n` items — for
example 237 — finishes with exactly `n` processed outcomes). -/
theorem claim_C9 (ctx : PoolCtx) (s : PoolState) (hreach : PoolReachable ctx s) :
    fetchingCount s ≤ 10 ∧
    (terminalPool s → s.completed = ctx.n ∧
      s.extracted + s.failed + s.skipped = ctx.n ∧
      s.skipped = ((List.range ctx.n).filter (fun i => ctx.hasLink i = false)).length) ∧
    (∃ t, Relation.ReflTransGen (PoolStep ctx) s t ∧ terminalPool t) := by
  obtain ⟨wlen, cle, csum, cfetch, cfin, cskip⟩ := poolInv_reachable hreach
  refine ⟨?_, ?_, ?_⟩
  · calc fetchingCount s ≤ s.workers.length := List.countP_le_length _
    _ = poolSize ctx := wlen
    _ ≤ 10 := Nat.min_le_left _ _
  · intro hterm
    have hfc : fetchingCount s = 0 := by
      rw [fetchingCount, List.countP_eq_zero]
      intro a ha
      rw [hterm a ha]
      simp [WStat.isFetching]
    have hcur : s.cursor = ctx.n := by
      rcases Nat.eq_zero_or_pos ctx.n with h0 | hpos
      · omega
      · have hlen : 0 < s.workers.length := by
          rw [wlen]
          unfold poolSize
          omega
        obtain ⟨st, hst⟩ := List.exists_mem_of_length_pos hlen
        have hfin := hterm st hst
        exact cfin (hfin ▸ hst)
    exact ⟨by omega, by omega, by rw [cskip, hcur]⟩
  · exact pool_reaches_terminal (poolMeasure ctx s) s (Nat.le_refl _) hreach

theorem claim_C9_witness :
    fetchingCount stateDone ≤ 10 ∧
    (terminalPool stateDone → stateDone.completed = ctxOne.n ∧
      stateDone.extracted + stateDone.failed + stateDone.skipped = ctxOne.n ∧
      stateDone.skipped =
        ((List.range ctxOne.n).filter (fun i => ctxOne.hasLink i = false)).length) ∧
    (∃ t, Relation.ReflTransGen (PoolStep ctxOne) stateDone t ∧ terminalPool t) :=
  claim_C9 ctxOne stateDone
    (Relation.ReflTransGen.head (PoolStep.claimSkip 0 (by decide) (by decide) (by decide))
      (Relation.ReflTransGen.single (PoolStep.exit 0 (by decide) (by decide))))
